import Mathlib

/-!
Verification model of the gen-AI Image Eval Engine core
(`src/unnamed/part_000`, evaluation service, and
`src/rareplanes-analyzer/src/hooks/useEvaluation.ts`).

Strings are modelled as `List Char`; JavaScript numbers are modelled as
exact rationals (`ℚ`), with JS `NaN` modelled as `none` in an `Option ℚ`
where a NaN can actually arise.  Fallible JS operations (`JSON.parse`,
property access on `null`, calling `.map` on a non-array) are modelled
with `Option`/`Except`, matching the `try`/`catch` structure of the
source.
-/

/-- Characters that `String.prototype.trim` and the `\s` regex class
remove (the common ASCII whitespace). -/
def isWsChar (c : Char) : Bool := c = ' ' || c = '\t' || c = '\n' || c = '\r'

/-- JS `String.prototype.trim` on a character list. -/
def jsTrim (cs : List Char) : List Char :=
  ((cs.dropWhile isWsChar).reverse.dropWhile isWsChar).reverse

/-- Drop trailing whitespace only. -/
def dropTrailWs (cs : List Char) : List Char :=
  (cs.reverse.dropWhile isWsChar).reverse

/-- `cs` starts with the literal prefix `p` (JS `startsWith`). -/
def leadsWith : List Char → List Char → Bool
  | [], _ => true
  | _ :: _, [] => false
  | p :: ps, c :: cs => p = c && leadsWith ps cs

/-- The `{` character, by code point. -/
def lbraceChar : Char := Char.ofNat 123

/-- The `}` character, by code point. -/
def rbraceChar : Char := Char.ofNat 125

/-- The `"` character, by code point. -/
def quotChar : Char := Char.ofNat 34

/-- Decimal value accumulated over a digit list (JS digit-run to number). -/
def charsToNat (ds : List Char) : ℕ :=
  ds.foldl (fun a c => 10 * a + (c.toNat - 48)) 0

/-- JSON values as produced by `JSON.parse`. -/
inductive Json where
  | null : Json
  | bool (b : Bool) : Json
  | num (q : ℚ) : Json
  | str (s : String) : Json
  | arr (elems : List Json) : Json
  | obj (fields : List (String × Json)) : Json

/-- Hexadecimal digit value, for `\uXXXX` escapes. -/
def hexVal (c : Char) : Option ℕ :=
  if c.isDigit then some (c.toNat - 48)
  else if 'a' ≤ c ∧ c ≤ 'f' then some (c.toNat - 87)
  else if 'A' ≤ c ∧ c ≤ 'F' then some (c.toNat - 55)
  else none

/-- Parse the body of a JSON string literal (the opening quote already
consumed), handling the escape sequences `JSON.parse` accepts and
rejecting raw control characters. -/
def parseJsonStrAux : ℕ → List Char → List Char → Option (String × List Char)
  | 0, _, _ => none
  | _ + 1, _, [] => none
  | fuel + 1, acc, c :: rest =>
    if c = quotChar then some (String.mk acc.reverse, rest)
    else if c = '\\' then
      match rest with
      | [] => none
      | e :: rest2 =>
        if e = quotChar then parseJsonStrAux fuel (quotChar :: acc) rest2
        else if e = '\\' then parseJsonStrAux fuel ('\\' :: acc) rest2
        else if e = '/' then parseJsonStrAux fuel ('/' :: acc) rest2
        else if e = 'b' then parseJsonStrAux fuel (Char.ofNat 8 :: acc) rest2
        else if e = 'f' then parseJsonStrAux fuel (Char.ofNat 12 :: acc) rest2
        else if e = 'n' then parseJsonStrAux fuel ('\n' :: acc) rest2
        else if e = 'r' then parseJsonStrAux fuel ('\r' :: acc) rest2
        else if e = 't' then parseJsonStrAux fuel ('\t' :: acc) rest2
        else if e = 'u' then
          match rest2 with
          | h1 :: h2 :: h3 :: h4 :: rest3 =>
            match hexVal h1, hexVal h2, hexVal h3, hexVal h4 with
            | some a, some b, some c2, some d =>
              parseJsonStrAux fuel
                (Char.ofNat (((a * 16 + b) * 16 + c2) * 16 + d) :: acc) rest3
            | _, _, _, _ => none
          | _ => none
        else none
    else if c.toNat < 32 then none
    else parseJsonStrAux fuel (c :: acc) rest

/-- Parse a JSON number literal into an exact rational (modelling note:
`JSON.parse` produces an IEEE double; the claims under study only involve
small decimals, which we keep exact). -/
def parseJsonNum (cs : List Char) : Option (ℚ × List Char) :=
  let (neg, cs1) :=
    match cs with
    | '-' :: r => (true, r)
    | _ => (false, cs)
  match cs1 with
  | [] => none
  | c :: _ =>
    if ¬ c.isDigit then none
    else
      let intDs := cs1.takeWhile Char.isDigit
      if 1 < intDs.length ∧ c = '0' then none
      else
        let rest1 := cs1.dropWhile Char.isDigit
        let step2 : Option (ℕ × ℕ × List Char) :=
          match rest1 with
          | '.' :: r =>
            let fds := r.takeWhile Char.isDigit
            if fds = [] then none
            else some (charsToNat fds, fds.length, r.dropWhile Char.isDigit)
          | _ => some (0, 0, rest1)
        match step2 with
        | none => none
        | some (fracN, flen, rest2) =>
          -- exact value: the rational is built by a single `mkRat` over
          -- integer arithmetic (ℚ division is irreducible in this library)
          let mantNum : ℤ := charsToNat intDs * 10 ^ flen + fracN
          let signedNum : ℤ := if neg then -mantNum else mantNum
          let mantDen : ℕ := 10 ^ flen
          let step3 : Option (List Char) :=
            match rest2 with
            | 'e' :: r => some r
            | 'E' :: r => some r
            | _ => none
          match step3 with
          | none => some (mkRat signedNum mantDen, rest2)
          | some r =>
            let (eneg, r2) :=
              match r with
              | '-' :: rr => (true, rr)
              | '+' :: rr => (false, rr)
              | _ => (false, r)
            let eds := r2.takeWhile Char.isDigit
            if eds = [] then none
            else
              let e := charsToNat eds
              let v := if eneg then mkRat signedNum (mantDen * 10 ^ e)
                       else mkRat (signedNum * 10 ^ e) mantDen
              some (v, r2.dropWhile Char.isDigit)

/-- Skip JSON whitespace. -/
def skipWs (cs : List Char) : List Char := cs.dropWhile isWsChar

mutual

/-- Recursive-descent JSON value, fuel-indexed so that every definition
stays structurally recursive (and kernel-reducible). -/
def parseJsonVal : ℕ → List Char → Option (Json × List Char)
  | 0, _ => none
  | fuel + 1, cs =>
    match cs with
    | [] => none
    | c :: r =>
      if c = lbraceChar then
        match skipWs r with
        | c2 :: r2 =>
          if c2 = rbraceChar then some (.obj [], r2)
          else
            match parseJsonObjFields fuel (c2 :: r2) with
            | some (fs, rest) => some (.obj fs, rest)
            | none => none
        | [] => none
      else if c = '[' then
        match skipWs r with
        | ']' :: r2 => some (.arr [], r2)
        | cs2 =>
          match parseJsonArrElems fuel cs2 with
          | some (vs, rest) => some (.arr vs, rest)
          | none => none
      else if c = quotChar then
        match parseJsonStrAux (r.length + 1) [] r with
        | some (s, rest) => some (.str s, rest)
        | none => none
      else if leadsWith "true".data cs then some (.bool true, cs.drop 4)
      else if leadsWith "false".data cs then some (.bool false, cs.drop 5)
      else if leadsWith "null".data cs then some (.null, cs.drop 4)
      else
        match parseJsonNum cs with
        | some (q, rest) => some (.num q, rest)
        | none => none

/-- One-or-more comma-separated array elements, then `]`. -/
def parseJsonArrElems : ℕ → List Char → Option (List Json × List Char)
  | 0, _ => none
  | fuel + 1, cs =>
    match parseJsonVal fuel cs with
    | none => none
    | some (v, rest) =>
      match skipWs rest with
      | ',' :: r2 =>
        match parseJsonArrElems fuel (skipWs r2) with
        | some (vs, r3) => some (v :: vs, r3)
        | none => none
      | c :: r2 =>
        if c = ']' then some ([v], r2) else none
      | [] => none

/-- One-or-more `"key": value` object members, then `}`. -/
def parseJsonObjFields : ℕ → List Char → Option (List (String × Json) × List Char)
  | 0, _ => none
  | fuel + 1, cs =>
    match cs with
    | c :: r =>
      if c = quotChar then
        match parseJsonStrAux (r.length + 1) [] r with
        | none => none
        | some (k, rest) =>
          match skipWs rest with
          | ':' :: r2 =>
            match parseJsonVal fuel (skipWs r2) with
            | none => none
            | some (v, rest2) =>
              match skipWs rest2 with
              | ',' :: r3 =>
                match skipWs r3 with
                | c4 :: r4 =>
                  if c4 = quotChar then
                    match parseJsonObjFields fuel (c4 :: r4) with
                    | some (fs, r5) => some ((k, v) :: fs, r5)
                    | none => none
                  else none
                | [] => none
              | c3 :: r3 =>
                if c3 = rbraceChar then some ([(k, v)], r3) else none
              | [] => none
          | _ => none
      else none
    | [] => none

end

/-- `JSON.parse` on a character list: one value, surrounded only by
whitespace, otherwise failure (modelled as `none` where the source
throws `SyntaxError`). -/
def jsonParse (cs : List Char) : Option Json :=
  match parseJsonVal (2 * cs.length + 2) (skipWs cs) with
  | some (v, rest) => if skipWs rest = [] then some v else none
  | none => none

/-! ### Response Normalizer (`parseLLMResponse`, part_000 lines 186-297) -/

/-- Return type of `parseLLMResponse`.  `count` is a JS number (`none`
models `NaN`); `countConfidence` carries the raw JSON value that the
source passes through unvalidated; `classConfidences` is optional. -/
structure ParseResult where
  count : Option ℚ
  classes : List ℚ
  countConfidence : Option Json := none
  classConfidences : Option (List ℚ) := none

/-- JS property read on a parsed JSON value: `undefined` is `none`;
arrays/primitives have none of the properties the source reads; for
objects the last duplicate key wins, as in `JSON.parse`. -/
def jsGetProp : Json → String → Option Json
  | .obj fields, k => fields.foldl (fun acc kv => if kv.1 = k then some kv.2 else acc) none
  | _, _ => none

/-- JS member access `v.k`: throws (models `TypeError`) iff `v` is
`null`; otherwise yields the property or `undefined`. -/
def jsMember (v : Json) (k : String) : Except Unit (Option Json) :=
  match v with
  | .null => .error ()
  | _ => .ok (jsGetProp v k)

/-- JS truthiness of a parsed JSON value. -/
def jsTruthy : Json → Bool
  | .null => false
  | .bool b => b
  | .num q => decide (q ≠ 0)
  | .str s => decide (s ≠ "")
  | .arr _ => true
  | .obj _ => true

/-- Exponent tail of a numeric string, for `jsStrToNumber`. -/
def jsStrToNumberExp (signedNum : ℤ) (mantDen : ℕ) (r : List Char) : Option ℚ :=
  let (eneg, r2) :=
    match r with
    | '-' :: rr => (true, rr)
    | '+' :: rr => (false, rr)
    | _ => (false, r)
  let eds := r2.takeWhile Char.isDigit
  if eds = [] ∨ r2.dropWhile Char.isDigit ≠ [] then none
  else
    let e := charsToNat eds
    some (if eneg then mkRat signedNum (mantDen * 10 ^ e)
          else mkRat (signedNum * 10 ^ e) mantDen)

/-- Lenient numeric-string parse backing JS `Number(string)`:
optional sign, decimal digits with optional fraction and exponent,
whole trimmed string consumed.  (`0x…`/`Infinity` forms are not
modelled; no claim exercises them.) -/
def jsStrToNumber (cs : List Char) : Option ℚ :=
  let t := jsTrim cs
  if t = [] then some 0
  else
    let (neg, cs1) :=
      match t with
      | '-' :: r => (true, r)
      | '+' :: r => (false, r)
      | _ => (false, t)
    let ids := cs1.takeWhile Char.isDigit
    let rest1 := cs1.dropWhile Char.isDigit
    let fracStep : ℕ × ℕ × List Char :=
      match rest1 with
      | '.' :: r =>
        let fds := r.takeWhile Char.isDigit
        (charsToNat fds, fds.length, r.dropWhile Char.isDigit)
      | _ => (0, 0, rest1)
    match fracStep with
    | (fracN, fdigits, rest2) =>
      if ids.length = 0 ∧ fdigits = 0 then none
      else
        let mantNum : ℤ := charsToNat ids * 10 ^ fdigits + fracN
        let signedNum : ℤ := if neg then -mantNum else mantNum
        let mantDen : ℕ := 10 ^ fdigits
        match rest2 with
        | [] => some (mkRat signedNum mantDen)
        | 'e' :: r => jsStrToNumberExp signedNum mantDen r
        | 'E' :: r => jsStrToNumberExp signedNum mantDen r
        | _ => none

/-- JS `Number(v)` coercion of a parsed JSON value; `none` models `NaN`.
Arrays other than `[]`/`[number]`/`[null]` coerce through their string
form, which no claim exercises; they are modelled as `NaN`. -/
def jsToNumber : Json → Option ℚ
  | .num q => some q
  | .null => some 0
  | .bool b => some (if b then 1 else 0)
  | .str s => jsStrToNumber s.data
  | .arr [] => some 0
  | .arr [.num q] => some q
  | .arr [.null] => some 0
  | .arr _ => none
  | .obj _ => none

/-- `objects.map(obj => obj.class)`-style access over an array, throwing
at the first element that is `null` (property access on `null`). -/
def mapMember : List Json → String → Except Unit (List (Option Json))
  | [], _ => .ok []
  | o :: os, k =>
    match jsMember o k with
    | .error e => .error e
    | .ok v =>
      match mapMember os k with
      | .error e => .error e
      | .ok vs => .ok (v :: vs)

/-- `.filter(id => typeof id === 'number' && id >= 0 && id <= 6)` over
mapped (possibly `undefined`) values — part_000 line 222/240. -/
def filterClassIds (vs : List (Option Json)) : List ℚ :=
  vs.filterMap fun v =>
    match v with
    | some (.num q) => if 0 ≤ q ∧ q ≤ 6 then some q else none
    | _ => none

/-- Same filter applied directly to JSON array elements — line 255/272. -/
def filterClassIdsJ (vs : List Json) : List ℚ :=
  vs.filterMap fun v =>
    match v with
    | .num q => if 0 ≤ q ∧ q ≤ 6 then some q else none
    | _ => none

/-- `.filter(conf => typeof conf === 'number' && conf >= 0 && conf <= 1)`
— part_000 line 223. -/
def filterConfs (vs : List (Option Json)) : List ℚ :=
  vs.filterMap fun v =>
    match v with
    | some (.num q) => if 0 ≤ q ∧ q ≤ 1 then some q else none
    | _ => none

/-- Value of the `parsed.classes || parsed.objects?.map(...) ||
parsed.aircraft?.map(...) || []` chain — part_000 line 271. -/
inductive FallbackVal where
  | raw (v : Json)
  | mapped (vs : List (Option Json))
  | nothing

/-- `parsed.aircraft?.map(a => a.class_id) || []`: `?.` skips
`null`/absent; `.map` on any other non-array throws. -/
def fallbackFromAircraft (parsed : Json) : Except Unit FallbackVal :=
  match jsGetProp parsed "aircraft" with
  | some .null => .ok .nothing
  | none => .ok .nothing
  | some (.arr xs) =>
    match mapMember xs "class_id" with
    | .error e => .error e
    | .ok vs => .ok (.mapped vs)
  | some _ => .error ()

/-- `parsed.objects?.map(obj => obj.class) || parsed.aircraft?...`:
a produced array (even empty) is truthy and stops the chain. -/
def fallbackFromObjects (parsed : Json) : Except Unit FallbackVal :=
  match jsGetProp parsed "objects" with
  | some .null => fallbackFromAircraft parsed
  | none => fallbackFromAircraft parsed
  | some (.arr xs) =>
    match mapMember xs "class" with
    | .error e => .error e
    | .ok vs => .ok (.mapped vs)
  | some _ => .error ()

/-- The full `parsed.classes || parsed.objects?.map(...) ||
parsed.aircraft?.map(...) || []` chain, short-circuiting on a truthy
`parsed.classes`. -/
def fallbackChain (parsed : Json) (clsOpt : Option Json) : Except Unit FallbackVal :=
  match clsOpt with
  | some v =>
    if jsTruthy v then .ok (.raw v) else fallbackFromObjects parsed
  | none => fallbackFromObjects parsed

/-- `Array.isArray(classes) ? classes.filter(...) : []` — line 272. -/
def fallbackValidClasses : FallbackVal → List ℚ
  | .raw (.arr xs) => filterClassIdsJ xs
  | .raw _ => []
  | .mapped vs => filterClassIds vs
  | .nothing => []

/-- The `objects`-array shape (lines 221-236): classes and confidences
are filtered independently of one another. -/
def interpretShapeA (parsed : Json) (cv : Json) (objs : List Json) : Except Unit ParseResult :=
  match mapMember objs "class" with
  | .error e => .error e
  | .ok classVs =>
    match mapMember objs "confidence" with
    | .error e => .error e
    | .ok confVs =>
      let classConfidences := filterConfs confVs
      match jsMember parsed "countConfidence" with
      | .error e => .error e
      | .ok ccV =>
        .ok { count := jsToNumber cv, classes := filterClassIds classVs,
              countConfidence := ccV,
              classConfidences :=
                if 0 < classConfidences.length then some classConfidences else none }

/-- The duck-typed fallback extraction (lines 269-281). -/
def interpretFallback (parsed : Json) (cvOpt clsOpt : Option Json) : Except Unit ParseResult :=
  match fallbackChain parsed clsOpt with
  | .error e => .error e
  | .ok fb =>
    match jsMember parsed "countConfidence" with
    | .error e => .error e
    | .ok ccV =>
      .ok { count := match cvOpt with | some cv => jsToNumber cv | none => some 0,
            classes := fallbackValidClasses fb, countConfidence := ccV }

/-- Shape (c) (`{count, classes:[...]}`) and the fallback, once shapes
(a) and (b) have not matched. -/
def interpretSimpleOrFallback (parsed : Json) (cvOpt : Option Json) : Except Unit ParseResult :=
  match jsGetProp parsed "classes" with
  | some (.arr cls) =>
    match cvOpt with
    | some cv =>
      -- simple format with classes array
      match jsMember parsed "countConfidence" with
      | .error e => .error e
      | .ok ccV =>
        .ok { count := jsToNumber cv, classes := filterClassIdsJ cls,
              countConfidence := ccV }
    | none => interpretFallback parsed cvOpt (some (.arr cls))
  | clsOpt => interpretFallback parsed cvOpt clsOpt

/-- Body of the `try` block after `JSON.parse` succeeded (part_000 lines
221-281): the three recognized shapes in priority order, then the
duck-typed fallback.  An `.error` models a thrown `TypeError`, caught by
the outer `catch`. -/
def interpretParsed (parsed : Json) : Except Unit ParseResult :=
  match jsMember parsed "count" with
  | .error e => .error e
  | .ok countV =>
    match jsMember parsed "objects" with
    | .error e => .error e
    | .ok objectsV =>
      match countV, objectsV with
      | some cv, some (.arr objs) => interpretShapeA parsed cv objs
      | cvOpt, _ =>
        match jsGetProp parsed "aircraft" with
        | some (.arr airs) =>
          match cvOpt with
          | some cv =>
            -- legacy format with aircraft array
            match mapMember airs "class_id" with
            | .error e => .error e
            | .ok classVs =>
              match jsMember parsed "countConfidence" with
              | .error e => .error e
              | .ok ccV =>
                .ok { count := jsToNumber cv, classes := filterClassIds classVs,
                      countConfidence := ccV }
          | none => interpretSimpleOrFallback parsed cvOpt
        | _ => interpretSimpleOrFallback parsed cvOpt

/-- `.replace(/\s*```$/, '')`: remove a final fence and the whitespace
immediately before it (a no-op when the text does not end in a fence). -/
def stripClose (cs : List Char) : List Char :=
  if leadsWith "```".data cs.reverse then dropTrailWs ((cs.reverse.drop 3).reverse)
  else cs

/-- Strip a leading/trailing markdown code fence (lines 198-203). -/
def stripFences (cs : List Char) : List Char :=
  if leadsWith "```json".data cs then stripClose ((cs.drop 7).dropWhile isWsChar)
  else if leadsWith "```".data cs then stripClose ((cs.drop 3).dropWhile isWsChar)
  else cs

/-- The greedy `/\{[\s\S]*\}/` match (line 208): from the first `{` to
the last `}`, when the latter comes after the former. -/
def braceExtract (cs : List Char) : Option (List Char) :=
  match cs.findIdx? (fun c => c = lbraceChar) with
  | none => none
  | some i =>
    match cs.reverse.findIdx? (fun c => c = rbraceChar) with
    | none => none
    | some k =>
      let j := cs.length - 1 - k
      if i < j then some ((cs.drop i).take (j - i + 1)) else none

/-- Case-insensitive prefix test (for the `/i` regex flag). -/
def leadsWithCI (p cs : List Char) : Bool :=
  leadsWith p ((cs.take p.length).map Char.toLower)

/-- Candidate keyword alternatives of `/(?:count|aircraft|planes?)/i`
matching at the current position, in the order the regex tries them. -/
def kwCandidates (cs : List Char) : List (List Char) :=
  (["count", "aircraft", "planes", "plane"]).filterMap fun kw =>
    if leadsWithCI kw.data cs then some (cs.drop kw.length) else none

/-- Leftmost match of `/(?:count|aircraft|planes?)[\s:]*(\d+)/i`
(line 285), returning the captured digit run as a number. -/
def countScan : List Char → Option ℕ
  | [] => none
  | c :: rest =>
    match (kwCandidates (c :: rest)).filterMap (fun after =>
      let afterSep := after.dropWhile (fun ch => isWsChar ch || ch = ':')
      let ds := afterSep.takeWhile Char.isDigit
      if ds = [] then none else some (charsToNat ds)) with
    | n :: _ => some n
    | [] => countScan rest

/-- Word character for the `\b`/`\w` regex classes (ASCII). -/
def isWordChar (c : Char) : Bool := c.isAlphanum || c = '_'

/-- All matches of `/\b(\d{1,2})\b/g` (line 286): maximal word-character
runs that consist of exactly one or two digits. -/
def classScanAux : ℕ → List Char → List ℕ
  | 0, _ => []
  | _ + 1, [] => []
  | fuel + 1, c :: rest =>
    if isWordChar c then
      let run := c :: rest.takeWhile isWordChar
      let after := rest.dropWhile isWordChar
      (if run.all Char.isDigit ∧ (run.length = 1 ∨ run.length = 2)
       then [charsToNat run] else []) ++ classScanAux fuel after
    else classScanAux fuel rest

/-- Fuel wrapper for `classScanAux`. -/
def classScan (cs : List Char) : List ℕ := classScanAux (cs.length + 1) cs

/-- The `catch` branch (lines 282-295): regex heuristics on the raw
response text. -/
def textExtract (response : List Char) : ParseResult :=
  { count := some ((countScan response).getD 0 : ℚ),
    classes := ((classScan response).map fun n => (n : ℚ)).filter
      (fun q => decide (0 ≤ q) && decide (q ≤ 6)) }

/-- The response after trimming and fence stripping (lines 198-203),
before the brace extraction is applied. -/
def fenceStripped (response : String) : List Char :=
  stripFences (jsTrim response.data)

/-- The text actually handed to `JSON.parse` (lines 198-212): the greedy
`{...}` match of the fence-stripped text when one exists, the
fence-stripped text itself otherwise. -/
def cleanedResponse (response : String) : List Char :=
  match braceExtract (fenceStripped response) with
  | some m => m
  | none => fenceStripped response

/-- Result produced from a successfully parsed JSON value: the shape
interpretation, with any throw inside the `try` caught and sent to the
text-extraction fallback on the raw response. -/
def interpretOrText (parsed : Json) (response : String) : ParseResult :=
  match interpretParsed parsed with
  | .ok r => r
  | .error _ => textExtract response.data

/-- `parseLLMResponse` (part_000 lines 187-297): fence stripping, greedy
brace extraction, `JSON.parse`, shape interpretation; any throw inside
the `try` (including `JSON.parse` itself) falls back to text extraction
on the raw response. -/
def parseLLMResponse (response : String) : ParseResult :=
  match jsonParse (cleanedResponse response) with
  | some parsed => interpretOrText parsed response
  | none => textExtract response.data

/-! ### Scoring Engine (part_000 lines 299-380) -/

/-- `calculateClassAccuracy` (lines 300-353).  Class ids are JS numbers
(`ℚ`); `[...].sort((a,b) => a-b)` is ascending `mergeSort`; the source
iterates `new Set([...actual, ...predicted])` and sums
`min(actualCount, predictedCount)` per distinct id — the sum is
enumeration-order independent, so a deduplicated list stands in for the
`Set`.  The occurrence maps are built from the sorted copies, hence the
counts below are taken over the sorted lists. -/
def calculateClassAccuracy (actual predicted : List ℚ) : ℚ :=
  if actual.length = 0 ∧ predicted.length = 0 then 1
  else if actual.length = 0 ∨ predicted.length = 0 then 0
  else
    let sortedActual := actual.mergeSort (fun a b => decide (a ≤ b))
    let sortedPredicted := predicted.mergeSort (fun a b => decide (a ≤ b))
    if sortedActual = sortedPredicted then 1
    else
      let allClasses := (actual ++ predicted).dedup
      let correctMatches :=
        (allClasses.map fun c => min (sortedActual.count c) (sortedPredicted.count c)).sum
      let maxTotal := max actual.length predicted.length
      if actual.length = predicted.length then
        if 0 < maxTotal then (correctMatches : ℚ) / (maxTotal : ℚ) else 0
      else
        let baseScore := (correctMatches : ℚ) / (maxTotal : ℚ)
        let lengthPenalty :=
          (min actual.length predicted.length : ℚ) / (max actual.length predicted.length : ℚ)
        baseScore * lengthPenalty

/-- The `{countAccuracy, classAccuracy}` score record. -/
structure ScorePair where
  countAccuracy : ℚ
  classAccuracy : ℚ
deriving DecidableEq

/-- `calculateImageScore` (lines 356-380). -/
def calculateImageScore (actualCount : ℚ) (actualClasses : List ℚ)
    (predictedCount : ℚ) (predictedClasses : List ℚ) : ScorePair :=
  let countAccuracy : ℚ :=
    if actualCount = 0 ∧ predictedCount = 0 then 1
    else if actualCount = 0 ∨ predictedCount = 0 then 0
    else min actualCount predictedCount / max actualCount predictedCount
  { countAccuracy := countAccuracy,
    classAccuracy := calculateClassAccuracy actualClasses predictedClasses }

/-! ### Run Serializer (part_000 lines 481-750) and evaluation state -/

/-- One `EvaluationImage` record (part_000 lines 5-25).  JS numbers that
are integers throughout the serializer path (`parseInt` results, counts,
class ids) are modelled as `ℤ`; optional fields as `Option`.  For the
optional rational fields, `none` conflates JS `undefined` with `NaN`:
both are falsy in every truthiness test the source applies to them and
neither is inspected in any other way on the modelled paths. -/
structure EvaluationImage where
  id : String
  filename : String
  subset : String
  imageUrl : String
  actualObjects : ℤ
  actualClasses : List ℤ
  actualClassNames : List String
  predictedObjects : Option ℤ := none
  predictedClasses : Option (List ℤ) := none
  predictedClassNames : Option (List String) := none
  predictedCountConfidence : Option ℚ := none
  predictedClassConfidences : Option (List ℚ) := none
  llmResponse : Option String := none
  score : Option ScorePair := none
  apiDuration : Option ℤ := none
  cost : Option ℚ := none
  imageWidth : Option ℤ := none
  imageHeight : Option ℤ := none
  status : String
deriving DecidableEq

/-- The slice of `EvaluationResult` (lines 39-48) that the serializer
reads: `exportToCSV` touches only `images`. -/
structure EvaluationResult where
  images : List EvaluationImage
  averageCountAccuracy : ℚ := 0
  averageClassAccuracy : ℚ := 0
  totalCost : ℚ := 0
deriving DecidableEq

/-- Decimal digits of a natural number, most significant first. -/
def natToCharsAux : ℕ → ℕ → List Char → List Char
  | 0, _, acc => acc
  | fuel + 1, n, acc =>
    let d := Char.ofNat (48 + n % 10)
    if n < 10 then d :: acc else natToCharsAux fuel (n / 10) (d :: acc)

/-- JS `String(n)` for a non-negative integer. -/
def natToChars (n : ℕ) : List Char := natToCharsAux (n + 1) n []

/-- JS `String(z)` for an integer. -/
def intToChars (z : ℤ) : List Char :=
  if z < 0 then '-' :: natToChars z.natAbs else natToChars z.natAbs

/-- Left-pad a digit string with zeros up to width `d`. -/
def padZeros (d : ℕ) (cs : List Char) : List Char :=
  List.replicate (d - cs.length) '0' ++ cs

/-- JS `Number.prototype.toFixed(d)` on an exact rational: round
`|q|·10^d` to the nearest integer (ties away from zero, computed as
`⌊(2·|num|·10^d + den) / (2·den)⌋` over the reduced fraction — ℚ
arithmetic itself is irreducible in this library, so the computation
stays on `ℕ`), and render sign, integer digits and exactly `d`
fractional digits. -/
def qToFixed (d : ℕ) (q : ℚ) : List Char :=
  let m : ℕ := (2 * (q.num.natAbs * 10 ^ d) + q.den) / (2 * q.den)
  let sign : List Char := if q.num < 0 then ['-'] else []
  let whole := natToChars (m / 10 ^ d)
  let frac := padZeros d (natToChars (m % 10 ^ d))
  sign ++ whole ++ (if d = 0 then [] else '.' :: frac)

/-- Exact `q * 100`, written over the reduced fraction so that it
kernel-reduces (ℚ multiplication is irreducible in this library). -/
def qTimes100 (q : ℚ) : ℚ := mkRat (q.num * 100) q.den

/-- Exact `q / 100`, likewise reduction-friendly. -/
def qDiv100 (q : ℚ) : ℚ := mkRat q.num (q.den * 100)

/-- JS `Array.prototype.join(sep)`. -/
def joinWith (sep : List Char) : List (List Char) → List Char
  | [] => []
  | [x] => x
  | x :: y :: t => x ++ sep ++ joinWith sep (y :: t)

/-- JS `String.prototype.split(sep)` for a one-character separator. -/
def splitOnChar (sep : Char) : List Char → List (List Char)
  | [] => [[]]
  | c :: rest =>
    if c = sep then [] :: splitOnChar sep rest
    else
      match splitOnChar sep rest with
      | x :: xs => (c :: x) :: xs
      | [] => [[c]]

/-- Leading decimal digit run, as used by `parseInt`. -/
def jsParseIntDigits (cs : List Char) : Option ℕ :=
  let ds := cs.takeWhile Char.isDigit
  if ds = [] then none else some (charsToNat ds)

/-- JS `parseInt(s)` (radix 10): leading whitespace, optional sign,
then the longest digit prefix; `none` models `NaN`. -/
def jsParseInt (cs : List Char) : Option ℤ :=
  match cs.dropWhile isWsChar with
  | [] => none
  | c :: r =>
    if c = '-' then (jsParseIntDigits r).map (fun n => -(n : ℤ))
    else if c = '+' then (jsParseIntDigits r).map (fun n => (n : ℤ))
    else (jsParseIntDigits (c :: r)).map (fun n => (n : ℤ))

/-- Exponent suffix for `jsParseFloat` (ignored when incomplete, as in
`parseFloat("1e")`). -/
def jsParseFloatExp (r : List Char) : Option (Bool × ℕ) :=
  let (eneg, r2) :=
    match r with
    | '-' :: rr => (true, rr)
    | '+' :: rr => (false, rr)
    | _ => (false, r)
  let eds := r2.takeWhile Char.isDigit
  if eds = [] then none else some (eneg, charsToNat eds)

/-- JS `parseFloat(s)`: longest decimal-literal prefix after optional
whitespace and sign; `none` models `NaN`. -/
def jsParseFloat (cs : List Char) : Option ℚ :=
  let t := cs.dropWhile isWsChar
  let (neg, cs1) :=
    match t with
    | '-' :: r => (true, r)
    | '+' :: r => (false, r)
    | _ => (false, t)
  let ids := cs1.takeWhile Char.isDigit
  let rest1 := cs1.dropWhile Char.isDigit
  let (fracN, fdigits, rest2) :=
    match rest1 with
    | '.' :: r =>
      let fds := r.takeWhile Char.isDigit
      (charsToNat fds, fds.length, r.dropWhile Char.isDigit)
    | _ => (0, 0, rest1)
  if ids = [] ∧ fdigits = 0 then none
  else
    let mantNum : ℤ := charsToNat ids * 10 ^ fdigits + fracN
    let signedNum : ℤ := if neg then -mantNum else mantNum
    let mantDen : ℕ := 10 ^ fdigits
    let expPart : Option (Bool × ℕ) :=
      match rest2 with
      | 'e' :: r => jsParseFloatExp r
      | 'E' :: r => jsParseFloatExp r
      | _ => none
    match expPart with
    | some (eneg, e) =>
      some (if eneg then mkRat signedNum (mantDen * 10 ^ e)
            else mkRat (signedNum * 10 ^ e) mantDen)
    | none => some (mkRat signedNum mantDen)

/-- JS `replace(target, '')` with a plain-string target: removes the
first occurrence only. -/
def removeFirstChar : Char → List Char → List Char
  | _, [] => []
  | t, c :: rest => if c = t then rest else c :: removeFirstChar t rest

/-- `imageId.replace(/\.jpg$/i, '')` — strip one case-insensitive
`.jpg` suffix (part_000 line 600). -/
def stripJpgSuffix (cs : List Char) : List Char :=
  if leadsWith "gpj.".data (cs.reverse.map Char.toLower) then (cs.reverse.drop 4).reverse
  else cs

/-- The fixed export header row (part_000 lines 482-502). -/
def csvHeaders : List String :=
  ["Image ID", "Filename", "Subset", "Actual Objects", "Actual Classes",
   "Actual Class Names", "Predicted Objects", "Predicted Classes",
   "Predicted Class Names", "Count Accuracy", "Class Accuracy",
   "Count Confidence", "Class Confidence", "Cost", "API Duration (ms)",
   "Image Width", "Image Height", "Status", "LLM Response"]

/-- The header set `parseCSVToEvaluationData` requires (lines 545-549). -/
def requiredCsvHeaders : List String :=
  ["Image ID", "Filename", "Subset", "Actual Objects", "Actual Classes",
   "Actual Class Names", "Predicted Objects", "Predicted Classes",
   "Predicted Class Names", "Count Accuracy", "Class Accuracy", "Cost",
   "API Duration (ms)", "Image Width", "Image Height", "Status", "LLM Response"]

/-- The 19 cell values of one exported row (lines 504-524), before
quoting.  `x || ''` renders `0`, `undefined` and `NaN` as the empty
cell; `x ? f x : ''` likewise. -/
def exportRowCells (img : EvaluationImage) : List (List Char) :=
  [img.id.data,
   img.filename.data,
   img.subset.data,
   intToChars img.actualObjects,
   joinWith [';'] (img.actualClasses.map intToChars),
   joinWith [';'] (img.actualClassNames.map String.data),
   (match img.predictedObjects with
    | some p => if p = 0 then [] else intToChars p
    | none => []),
   joinWith [';'] ((img.predictedClasses.getD []).map intToChars),
   joinWith [';'] ((img.predictedClassNames.getD []).map String.data),
   (match img.score with
    | some sc => qToFixed 1 (qTimes100 sc.countAccuracy) ++ ['%']
    | none => []),
   (match img.score with
    | some sc => qToFixed 1 (qTimes100 sc.classAccuracy) ++ ['%']
    | none => []),
   (match img.predictedCountConfidence with
    | some c => if c = 0 then [] else qToFixed 1 (qTimes100 c) ++ ['%']
    | none => []),
   (match img.predictedClassConfidences with
    | some cs => joinWith [';'] (cs.map fun c => qToFixed 1 (qTimes100 c) ++ ['%'])
    | none => []),
   (match img.cost with
    | some c => if c = 0 then [] else '$' :: qToFixed 4 c
    | none => []),
   (match img.apiDuration with
    | some d => if d = 0 then [] else intToChars d
    | none => []),
   (match img.imageWidth with
    | some w => if w = 0 then [] else intToChars w
    | none => []),
   (match img.imageHeight with
    | some h => if h = 0 then [] else intToChars h
    | none => []),
   img.status.data,
   ((img.llmResponse.getD "").data.map fun c => if c = '\n' then ' ' else c).map
     (fun c => if c = ',' then ';' else c)]

/-- Wrap a cell in double quotes (the `"${field}"` template, line 527 —
note the source does not escape quotes inside the field). -/
def quoteCell (cs : List Char) : List Char := quotChar :: cs ++ [quotChar]

/-- One CSV line: quoted cells joined with commas. -/
def csvJoinRow (cells : List (List Char)) : List Char :=
  joinWith [','] (cells.map quoteCell)

/-- `exportToCSV` (lines 481-531): header line plus one line per image,
joined with newlines. -/
def exportToCSV (result : EvaluationResult) : List Char :=
  joinWith ['\n']
    (csvJoinRow (csvHeaders.map String.data) ::
      result.images.map fun img => csvJoinRow (exportRowCells img))

/-- The quote-aware field splitter `parseCSVRow` (lines 720-750):
`inQ` is the `inQuotes` flag, `cur` the current field accumulator;
`""` inside quotes is an escaped quote; fields are trimmed as pushed. -/
def csvRowGo : Bool → List Char → List Char → List (List Char)
  | _, cur, [] => [jsTrim cur]
  | true, cur, c :: c2 :: rest =>
    if c = quotChar ∧ c2 = quotChar then csvRowGo true (cur ++ [quotChar]) rest
    else if c = quotChar then csvRowGo false cur (c2 :: rest)
    else csvRowGo true (cur ++ [c]) (c2 :: rest)
  | true, cur, [c] =>
    if c = quotChar then csvRowGo false cur []
    else csvRowGo true (cur ++ [c]) []
  | false, cur, c :: rest =>
    if c = quotChar then csvRowGo true cur rest
    else if c = ',' then jsTrim cur :: csvRowGo false [] rest
    else csvRowGo false (cur ++ [c]) rest

/-- `parseCSVRow` entry point. -/
def parseCSVRow (row : List Char) : List (List Char) := csvRowGo false [] row

/-- Global one-character replacement (`.replace(/;/g, ',')` etc.). -/
def replaceAllChar (t r : Char) (cs : List Char) : List Char :=
  cs.map fun c => if c = t then r else c

/-- `.replace(/(\w+):/g, '"$1":')` (line 634): wrap every maximal
word-character run that immediately precedes a `:` in double quotes.
Part of the legacy-CSV confidence-repair shim; the repair path runs only
when a confidence column is missing, which no claim involves.  Fuel (one
unit per consumed character) keeps the recursion structural. -/
def quotePropNamesAux : ℕ → List Char → List Char
  | 0, cs => cs
  | _ + 1, [] => []
  | fuel + 1, c :: rest =>
    if isWordChar c then
      let run := c :: rest.takeWhile isWordChar
      let after := rest.dropWhile isWordChar
      match after with
      | ':' :: r2 => quotChar :: run ++ quotChar :: ':' :: quotePropNamesAux fuel r2
      | _ => run ++ quotePropNamesAux fuel after
    else c :: quotePropNamesAux fuel rest

/-- Fuel wrapper for `quotePropNamesAux`. -/
def quotePropNames (cs : List Char) : List Char := quotePropNamesAux (cs.length + 1) cs

/-- `.replace(/:\s*([A-Za-z][A-Za-z\s]*[A-Za-z])([,}])/g, ': "$1"$2')`
(line 637): quote a multi-letter bare word value directly followed by
`,` or `}`.  Same legacy shim; not involved in any claim. -/
def quoteStringValuesAux : ℕ → List Char → List Char
  | 0, cs => cs
  | _ + 1, [] => []
  | fuel + 1, c :: rest =>
    if c = ':' then
      let afterWs := rest.dropWhile isWsChar
      let run := afterWs.takeWhile fun x => x.isAlpha || isWsChar x
      let tail := afterWs.dropWhile fun x => x.isAlpha || isWsChar x
      match tail with
      | sep :: r2 =>
        if (sep = ',' ∨ sep = rbraceChar) ∧ 2 ≤ run.length ∧
            (run.headD ' ').isAlpha ∧ (run.getLastD ' ').isAlpha then
          ':' :: ' ' :: quotChar :: run ++ quotChar :: sep :: quoteStringValuesAux fuel r2
        else ':' :: quoteStringValuesAux fuel rest
      | [] => ':' :: quoteStringValuesAux fuel rest
    else c :: quoteStringValuesAux fuel rest

/-- Fuel wrapper for `quoteStringValuesAux`. -/
def quoteStringValues (cs : List Char) : List Char := quoteStringValuesAux (cs.length + 1) cs

/-- `.replace(/:\s*(\d+\.?\d*)([,}])/g, ': $1$2')` (line 640): same
legacy shim, normalising the whitespace before a numeric value. -/
def quoteNumValuesAux : ℕ → List Char → List Char
  | 0, cs => cs
  | _ + 1, [] => []
  | fuel + 1, c :: rest =>
    if c = ':' then
      let afterWs := rest.dropWhile isWsChar
      let ds := afterWs.takeWhile Char.isDigit
      let afterDs := afterWs.dropWhile Char.isDigit
      let numTail : List Char × List Char :=
        match afterDs with
        | '.' :: r3 => (ds ++ '.' :: r3.takeWhile Char.isDigit, r3.dropWhile Char.isDigit)
        | _ => (ds, afterDs)
      match numTail with
      | (num, sep :: r4) =>
        if (sep = ',' ∨ sep = rbraceChar) ∧ ds ≠ [] then
          ':' :: ' ' :: num ++ sep :: quoteNumValuesAux fuel r4
        else ':' :: quoteNumValuesAux fuel rest
      | (_, []) => ':' :: quoteNumValuesAux fuel rest
    else c :: quoteNumValuesAux fuel rest

/-- Fuel wrapper for `quoteNumValuesAux`. -/
def quoteNumValues (cs : List Char) : List Char := quoteNumValuesAux (cs.length + 1) cs

/-- The JSON repair applied to a stored raw response before re-extracting
confidences (lines 621-640): trim, strip fences, `;`→`,`, quote property
names, quote bare string values, normalise numeric values. -/
def repairResponseText (cs : List Char) : List Char :=
  quoteNumValues (quoteStringValues (quotePropNames
    (replaceAllChar ';' ',' (stripFences (jsTrim cs)))))

/-- A JSON value assigned into a `number`-typed confidence slot; only
numeric values are representable in the model (comment in
`EvaluationImage` on the `undefined`/`NaN` conflation). -/
def asNumOpt : Json → Option ℚ
  | .num q => some q
  | _ => none

/-- Best-effort confidence re-extraction from the stored raw response
(lines 616-662), entered only when a confidence column is missing.
Mirrors the mutation order of the source: `countConfidence` is assigned
before the `objects` access, so a throw there keeps the first
assignment; any throw is caught and leaves the rest unchanged. -/
def extractConfidences (llm : List Char) (hasCC hasClC : Bool)
    (curCC : Option ℚ) (curClC : Option (List ℚ)) : Option ℚ × Option (List ℚ) :=
  if hasCC ∧ hasClC then (curCC, curClC)
  else if llm = [] then (curCC, curClC)
  else
    match jsonParse (repairResponseText llm) with
    | none => (curCC, curClC)
    | some parsed =>
      match jsMember parsed "countConfidence" with
      | .error _ => (curCC, curClC)
      | .ok ccv =>
        let cc2 := if ¬ hasCC ∧ ccv.isSome then
            (match ccv with | some v => asNumOpt v | none => curCC)
          else curCC
        if ¬ hasClC then
          match jsMember parsed "objects" with
          | .error _ => (cc2, curClC)
          | .ok (some (.arr objs)) =>
            match mapMember objs "confidence" with
            | .error _ => (cc2, curClC)
            | .ok vs =>
              (cc2, some (vs.filterMap fun v =>
                match v with
                | some (.num q) => some q
                | _ => none))
          | .ok _ => (cc2, curClC)
        else (cc2, curClC)

/-- Decidable equality for `Except`, used to state and check concrete
serializer results. -/
instance {e a : Type} [DecidableEq e] [DecidableEq a] : DecidableEq (Except e a) := fun x y =>
  match x, y with
  | .error u, .error v =>
    if h : u = v then .isTrue (by rw [h]) else .isFalse (by intro c; cases c; exact h rfl)
  | .ok u, .ok v =>
    if h : u = v then .isTrue (by rw [h]) else .isFalse (by intro c; cases c; exact h rfl)
  | .error _, .ok _ => .isFalse (by intro c; cases c)
  | .ok _, .error _ => .isFalse (by intro c; cases c)

/-- `getField` inside the row loop (lines 573-576): cell at the header's
index, `''` when the header is unknown. -/
def getFieldOf (headers fields : List (List Char)) (name : String) : List Char :=
  match headers.findIdx? (fun h => decide (h = name.data)) with
  | some i => fields.getD i []
  | none => []

/-- Parse a `;`-separated integer-list cell
(`str.split(';').map(c => parseInt(c.trim())).filter(c => !isNaN(c))`,
lines 579-584); an empty cell is falsy and yields `[]`. -/
def parseClassesCell (cell : List Char) : List ℤ :=
  if cell = [] then []
  else (splitOnChar ';' cell).filterMap fun c => jsParseInt (jsTrim c)

/-- Parse a `%`-confidence cell (`parseFloat(str.replace('%', '')) / 100`). -/
def parseConfidenceCell (cell : List Char) : Option ℚ :=
  (jsParseFloat (removeFirstChar '%' cell)).map qDiv100

/-- Build one `EvaluationImage` from a parsed CSV row (lines 573-696).
Scores are recomputed by `calculateImageScore` from the parsed cells;
the stored `Count Accuracy`/`Class Accuracy` cells are never read. -/
def buildCSVImage (headers : List (List Char)) (hasCC hasClC : Bool)
    (fields : List (List Char)) : EvaluationImage :=
  let getField := getFieldOf headers fields
  let actualClasses := parseClassesCell (getField "Actual Classes")
  let predictedClasses := parseClassesCell (getField "Predicted Classes")
  let actualCount : ℤ := (jsParseInt (getField "Actual Objects")).getD 0
  let predictedCount : ℤ := (jsParseInt (getField "Predicted Objects")).getD 0
  let scores := calculateImageScore (actualCount : ℚ) (actualClasses.map fun z => (z : ℚ))
    (predictedCount : ℚ) (predictedClasses.map fun z => (z : ℚ))
  let costStr := removeFirstChar '$' (getField "Cost")
  let cost : Option ℚ := if costStr = [] then some 0 else jsParseFloat costStr
  let baseName := stripJpgSuffix (getField "Image ID")
  let cc0 : Option ℚ :=
    if hasCC then
      (let s := getField "Count Confidence"
       if s = [] then none else parseConfidenceCell s)
    else none
  let clc0 : Option (List ℚ) :=
    if hasClC then
      (let s := getField "Class Confidence"
       if s = [] then none
       else some ((splitOnChar ';' s).filterMap parseConfidenceCell))
    else none
  let conf := extractConfidences (getField "LLM Response") hasCC hasClC cc0 clc0
  { id := String.mk baseName,
    filename := String.mk (getField "Filename"),
    subset := String.mk (getField "Subset"),
    imageUrl := String.mk ("http://localhost:3001/dataset/".data ++ getField "Subset"
      ++ "/images/".data ++ getField "Filename"),
    actualObjects := actualCount,
    actualClasses := actualClasses,
    actualClassNames := ((splitOnChar ';' (getField "Actual Class Names")).filter
      (fun n => decide (jsTrim n ≠ []))).map String.mk,
    predictedObjects := some predictedCount,
    predictedClasses := some predictedClasses,
    predictedClassNames := some (((splitOnChar ';' (getField "Predicted Class Names")).filter
      (fun n => decide (jsTrim n ≠ []))).map String.mk),
    predictedCountConfidence := conf.1,
    predictedClassConfidences := conf.2,
    llmResponse := some (String.mk (getField "LLM Response")),
    score := some scores,
    apiDuration := some ((jsParseInt (getField "API Duration (ms)")).getD 0),
    cost := cost,
    imageWidth :=
      (match jsParseInt (getField "Image Width") with
       | some w => if w = 0 then none else some w
       | none => none),
    imageHeight :=
      (match jsParseInt (getField "Image Height") with
       | some h => if h = 0 then none else some h
       | none => none),
    status := String.mk (getField "Status") }

/-- `parseCSVToEvaluationData` (lines 534-717).  Throws (modelled as
`.error`) on fewer than two lines or missing required headers; rows that
are blank or too short are skipped individually. -/
def parseCSVToEvaluationData (csvContent : List Char) :
    Except (List Char) (List EvaluationImage) :=
  let lines := splitOnChar '\n' (jsTrim csvContent)
  if lines.length < 2 then .error "Invalid CSV format: insufficient data".data
  else
    let headers := (splitOnChar ',' (lines.headD [])).map
      fun h => jsTrim (h.filter fun c => decide (c ≠ quotChar))
    if ¬ (requiredCsvHeaders.all fun h => headers.contains h.data) then
      .error "Invalid CSV format: missing required headers".data
    else
      let hasCC := headers.contains "Count Confidence".data
      let hasClC := headers.contains "Class Confidence".data
      .ok ((lines.drop 1).filterMap fun rawLine =>
        let line := jsTrim rawLine
        if line = [] then none
        else
          let fields := parseCSVRow line
          if fields.length < headers.length then none
          else some (buildCSVImage headers hasCC hasClC fields))

/-! ### Evaluation state: `stopEvaluation` / `resetEvaluation`
(`useEvaluation.ts` lines 832-880) -/

/-- The per-model evaluation state manipulated by the hook: the
`stopFlags.current[modelId]` ref is folded in as `stopFlag`. -/
structure ModelEvalState where
  isRunning : Bool
  currentImageIndex : ℕ
  progress : ℚ
  results : Option EvaluationResult
  images : List EvaluationImage
  stopFlag : Bool
deriving DecidableEq

/-- The per-image wipe both `stopEvaluation` and `resetEvaluation`
apply (status back to `pending`, predictions and derived data
cleared). -/
def resetImagePending (img : EvaluationImage) : EvaluationImage :=
  { img with
    status := "pending",
    score := none,
    predictedObjects := some 0,
    predictedClasses := some [],
    predictedCountConfidence := none,
    predictedClassConfidences := some [],
    llmResponse := some "",
    apiDuration := some 0,
    cost := some 0 }

/-- `stopEvaluation` (lines 832-854): set the cancellation flag, stop
running, drop results, wipe every image back to pending. -/
def stopEvaluation (s : ModelEvalState) : ModelEvalState :=
  { s with
    stopFlag := true,
    isRunning := false,
    results := none,
    images := s.images.map resetImagePending }

/-- `resetEvaluation` (lines 857-880): same state update, plus clearing
`currentImageIndex` and `progress` — but it never touches
`stopFlags.current`. -/
def resetEvaluation (s : ModelEvalState) : ModelEvalState :=
  { s with
    isRunning := false,
    currentImageIndex := 0,
    progress := 0,
    results := none,
    images := s.images.map resetImagePending }

/-! ### Specification-side definitions (for refinement claims) -/

/-- Class accuracy as the specification words it (spec §4.2 / claim C1):
multiset identity test, then `correct = Σ_c min(countActual c,
countPredicted c)` over distinct ids, `maxTotal = max of lengths`,
`correct/maxTotal` for equal lengths and
`(correct/maxTotal)·(min/max)` otherwise. -/
def classAccuracySpec (actual predicted : List ℚ) : ℚ :=
  if actual = [] ∧ predicted = [] then 1
  else if actual = [] ∨ predicted = [] then 0
  else if (actual : Multiset ℚ) = (predicted : Multiset ℚ) then 1
  else
    let correct := ((actual ++ predicted).dedup.map fun c =>
      min (actual.count c) (predicted.count c)).sum
    let maxTotal := max actual.length predicted.length
    if actual.length = predicted.length then (correct : ℚ) / (maxTotal : ℚ)
    else ((correct : ℚ) / (maxTotal : ℚ)) *
      ((min actual.length predicted.length : ℚ) / (maxTotal : ℚ))

/-- A character that cannot break the quoted-cell CSV framing: not a
double quote, not a comma, not a newline. -/
def csvCleanChar (c : Char) : Prop := c ≠ quotChar ∧ c ≠ ',' ∧ c ≠ '\n'

/-- A string all of whose characters are CSV-framing-safe. -/
def csvClean (cs : List Char) : Prop := ∀ c ∈ cs, csvCleanChar c

instance (c : Char) : Decidable (csvCleanChar c) := by
  unfold csvCleanChar
  infer_instance

instance (cs : List Char) : Decidable (csvClean cs) := by
  unfold csvClean
  infer_instance

/-- The well-formedness the round-trip claim (C5) assumes of a completed
image: prediction fields present, the stored score equal to the scoring
formula on the image's own data (true of every image the Orchestrator
completes), and the free-text fields unable to break the CSV framing
(`exportToCSV` does not escape quotes, and only the LLM response has its
newlines and commas replaced). -/
def WellFormedImage (img : EvaluationImage) : Prop :=
  img.status = "completed" ∧
  img.predictedObjects.isSome ∧
  img.predictedClasses.isSome ∧
  img.score = some (calculateImageScore (img.actualObjects : ℚ)
    (img.actualClasses.map fun z => (z : ℚ))
    ((img.predictedObjects.getD 0 : ℤ) : ℚ)
    ((img.predictedClasses.getD []).map fun z => (z : ℚ))) ∧
  csvClean img.id.data ∧
  csvClean img.filename.data ∧
  csvClean img.subset.data ∧
  (∀ n ∈ img.actualClassNames, csvClean n.data) ∧
  (∀ n ∈ img.predictedClassNames.getD [], csvClean n.data) ∧
  (∀ c ∈ (img.llmResponse.getD "").data, c ≠ quotChar)

instance (img : EvaluationImage) : Decidable (WellFormedImage img) := by
  unfold WellFormedImage
  infer_instance

/-- A concrete completed, well-formed image used to instantiate the
serializer round trip: its stored score is the scoring formula applied
to its own fields, as the Orchestrator guarantees for every completed
image. -/
def wfImage : EvaluationImage :=
  { id := "img1", filename := "img1.png", subset := "test",
    imageUrl := "http://localhost:3001/dataset/test/images/img1.png",
    actualObjects := 3, actualClasses := [1, 2, 2],
    actualClassNames := ["Small Civil Transport/Utility"],
    predictedObjects := some 2, predictedClasses := some [1, 2],
    predictedClassNames := some ["Small Civil Transport/Utility"],
    predictedCountConfidence := none,
    predictedClassConfidences := some [],
    llmResponse := some "count 2",
    score := some (calculateImageScore ((3 : ℤ) : ℚ)
      ([(1 : ℤ), 2, 2].map fun z => (z : ℚ)) ((2 : ℤ) : ℚ)
      ([(1 : ℤ), 2].map fun z => (z : ℚ))),
    apiDuration := some 100, cost := some 0,
    imageWidth := none, imageHeight := none,
    status := "completed" }

/-! ## Theorems -/

/-- C2: for all non-negative integers `actual` and `predicted`, the
count accuracy computed by `calculateImageScore` is 1 when both are
zero, 0 when exactly one is zero, and `min/max` otherwise; in
particular `actual = 3, predicted = 2` yields `2/3`. -/
theorem c2_count_accuracy_formula :
    (∀ (a p : ℕ) (ac pc : List ℚ),
      (calculateImageScore a ac p pc).countAccuracy =
        if a = 0 ∧ p = 0 then 1
        else if a = 0 ∨ p = 0 then 0
        else (min a p : ℚ) / (max a p : ℚ)) ∧
    (calculateImageScore 3 [] 2 []).countAccuracy = 2 / 3 := by
  constructor
  · intro a p ac pc
    simp only [calculateImageScore]
    by_cases ha : a = 0 <;> by_cases hp : p = 0 <;>
      simp [ha, hp, Nat.cast_min, Nat.cast_max]
  · norm_num [calculateImageScore, min_def, max_def]

/-- C9 as claimed is false: `resetEvaluation` does not set the
cancellation flag, while `stopEvaluation` does — witnessed by a state
whose `stopFlag` is `false`. -/
theorem c9_counterexample :
    ¬ (∀ s : ModelEvalState,
        resetEvaluation s = { stopEvaluation s with currentImageIndex := 0, progress := 0 }) := by
  intro h
  have h2 := congrArg ModelEvalState.stopFlag
    (h { isRunning := true, currentImageIndex := 2, progress := mkRat 1 2,
         results := none, images := [], stopFlag := false })
  simp [resetEvaluation, stopEvaluation] at h2

/-- C9 amended: `resetEvaluation` equals the state update of
`stopEvaluation` with `currentImageIndex` and `progress` additionally
cleared, except that the cancellation flag is left untouched. -/
theorem c9_amended_reset_is_stop_without_flag (s : ModelEvalState) :
    resetEvaluation s =
      { stopEvaluation s with
        currentImageIndex := 0, progress := 0, stopFlag := s.stopFlag } := rfl

/-- C3: `parseLLMResponse` is a total function of the input string (the
only throwing operations of the source are inside the `try`, whose
`catch` produces the text-extraction fallback), and on the empty string,
on malformed JSON, and on a JSON object with none of the recognized
keys it returns exactly the `{count: 0, classes: []}` floor. -/
theorem c3_normalizer_total_with_floor :
    (∀ s : String, ∃ r : ParseResult, parseLLMResponse s = r) ∧
    parseLLMResponse "" = { count := some 0, classes := [] } ∧
    parseLLMResponse "completely invalid \x7b\x7b\x7b" = { count := some 0, classes := [] } ∧
    parseLLMResponse "\x7b\"unrelated\": true\x7d" = { count := some 0, classes := [] } :=
  ⟨fun s => ⟨parseLLMResponse s, rfl⟩, rfl, rfl, rfl⟩

/-- C8 as claimed is false: the brace extraction is applied *before*
`JSON.parse`, not only after an outright parse fails.  On the input
`[{"count":1,"classes":[2]}]` the fence-stripped text parses outright
(as an array), yet the result comes from re-parsing the extracted
`{...}` substring, not from interpreting the outright parse. -/
theorem c8_counterexample :
    ¬ (∀ (s : String) (v : Json), jsonParse (fenceStripped s) = some v →
        parseLLMResponse s = interpretOrText v s) := by
  intro h
  have h2 := h "[\x7b\"count\":1,\"classes\":[2]\x7d]"
    (.arr [.obj [("count", .num 1), ("classes", .arr [.num 2])]]) (by rfl)
  have h3 : ([2] : List ℚ) = [] := congrArg ParseResult.classes h2
  exact absurd h3 (by decide)

/-- C8 amended: whenever the greedy brace extraction is a no-op on the
fence-stripped text (no `{...}` match, or the match is the whole text —
in particular whenever that text is itself a JSON object), the outright
parse is the one interpreted. -/
theorem c8_amended_outright_parse_used (s : String) (v : Json)
    (h1 : jsonParse (fenceStripped s) = some v)
    (h2 : braceExtract (fenceStripped s) = none ∨
          braceExtract (fenceStripped s) = some (fenceStripped s)) :
    parseLLMResponse s = interpretOrText v s := by
  unfold parseLLMResponse cleanedResponse
  rcases h2 with h2 | h2 <;> rw [h2] <;> simp [h1]

/-- Witness for `c8_amended_outright_parse_used` at a concrete object
input: the extraction is the identity there and the outright parse is
used. -/
theorem c8_amended_witness :
    jsonParse (fenceStripped "\x7b\"count\":1,\"classes\":[2]\x7d") =
      some (.obj [("count", .num 1), ("classes", .arr [.num 2])]) ∧
    parseLLMResponse "\x7b\"count\":1,\"classes\":[2]\x7d" =
      interpretOrText (.obj [("count", .num 1), ("classes", .arr [.num 2])])
        "\x7b\"count\":1,\"classes\":[2]\x7d" :=
  ⟨rfl, c8_amended_outright_parse_used _ _ rfl (Or.inr rfl)⟩

/-- Every id surviving the `filterClassIds` range filter is in `[0, 6]`. -/
theorem mem_filterClassIds {vs : List (Option Json)} {x : ℚ}
    (hx : x ∈ filterClassIds vs) : 0 ≤ x ∧ x ≤ 6 := by
  simp only [filterClassIds, List.mem_filterMap] at hx
  obtain ⟨v, _, hv⟩ := hx
  rcases v with _ | j
  · exact absurd hv (by simp)
  · cases j with
    | num q =>
      have hv2 : (if 0 ≤ q ∧ q ≤ 6 then some q else none) = some x := hv
      by_cases hq : 0 ≤ q ∧ q ≤ 6
      · rw [if_pos hq] at hv2
        rcases Option.some.inj hv2 with rfl
        exact hq
      · rw [if_neg hq] at hv2
        exact Option.noConfusion hv2
    | null => exact absurd hv (by simp)
    | bool b => exact absurd hv (by simp)
    | str s => exact absurd hv (by simp)
    | arr xs => exact absurd hv (by simp)
    | obj fs => exact absurd hv (by simp)

/-- Same, for the filter applied directly to JSON array elements. -/
theorem mem_filterClassIdsJ {vs : List Json} {x : ℚ}
    (hx : x ∈ filterClassIdsJ vs) : 0 ≤ x ∧ x ≤ 6 := by
  simp only [filterClassIdsJ, List.mem_filterMap] at hx
  obtain ⟨v, _, hv⟩ := hx
  cases v with
  | num q =>
    have hv2 : (if 0 ≤ q ∧ q ≤ 6 then some q else none) = some x := hv
    by_cases hq : 0 ≤ q ∧ q ≤ 6
    · rw [if_pos hq] at hv2
      rcases Option.some.inj hv2 with rfl
      exact hq
    · rw [if_neg hq] at hv2
      exact Option.noConfusion hv2
  | null => exact absurd hv (by simp)
  | bool b => exact absurd hv (by simp)
  | str s => exact absurd hv (by simp)
  | arr xs => exact absurd hv (by simp)
  | obj fs => exact absurd hv (by simp)

/-- Every id produced by the duck-typed fallback is in `[0, 6]`. -/
theorem mem_fallbackValidClasses {fb : FallbackVal} {x : ℚ}
    (hx : x ∈ fallbackValidClasses fb) : 0 ≤ x ∧ x ≤ 6 := by
  cases fb with
  | raw v =>
    cases v <;> simp only [fallbackValidClasses] at hx <;>
      first
      | exact absurd hx (by simp)
      | exact mem_filterClassIdsJ hx
  | mapped vs => exact mem_filterClassIds hx
  | nothing => exact absurd hx (by simp [fallbackValidClasses])

/-- Every id produced by the text-extraction fallback is in `[0, 6]`. -/
theorem mem_textExtract_classes {cs : List Char} {x : ℚ}
    (hx : x ∈ (textExtract cs).classes) : 0 ≤ x ∧ x ≤ 6 := by
  simp only [textExtract, List.mem_filter] at hx
  obtain ⟨_, hp⟩ := hx
  simp only [Bool.and_eq_true, decide_eq_true_iff] at hp
  exact hp

/-- A successful shape-(a) interpretation draws its classes from
`filterClassIds`. -/
theorem interpretShapeA_ok {p cv : Json} {objs : List Json} {r : ParseResult}
    (h : interpretShapeA p cv objs = .ok r) :
    ∃ vs, r.classes = filterClassIds vs := by
  unfold interpretShapeA at h
  split at h
  · exact Except.noConfusion h
  · split at h
    · exact Except.noConfusion h
    · split at h
      · exact Except.noConfusion h
      · cases h; exact ⟨_, rfl⟩

/-- A successful fallback interpretation draws its classes from
`fallbackValidClasses`. -/
theorem interpretFallback_ok {p : Json} {cvOpt clsOpt : Option Json} {r : ParseResult}
    (h : interpretFallback p cvOpt clsOpt = .ok r) :
    ∃ fb, r.classes = fallbackValidClasses fb := by
  unfold interpretFallback at h
  split at h
  · exact Except.noConfusion h
  · split at h
    · exact Except.noConfusion h
    · cases h; exact ⟨_, rfl⟩

/-- A successful simple-shape-or-fallback interpretation draws its
classes from one of the two filters. -/
theorem interpretSimpleOrFallback_ok {p : Json} {cvOpt : Option Json} {r : ParseResult}
    (h : interpretSimpleOrFallback p cvOpt = .ok r) :
    (∃ vs, r.classes = filterClassIdsJ vs) ∨
    (∃ fb, r.classes = fallbackValidClasses fb) := by
  unfold interpretSimpleOrFallback at h
  split at h
  · split at h
    · split at h
      · exact Except.noConfusion h
      · cases h; exact Or.inl ⟨_, rfl⟩
    · exact Or.inr (interpretFallback_ok h)
  · exact Or.inr (interpretFallback_ok h)

/-- Any successful interpretation draws its classes from one of the
three filtered sources. -/
theorem interpretParsed_ok_classes {p : Json} {r : ParseResult}
    (h : interpretParsed p = .ok r) :
    (∃ vs, r.classes = filterClassIds vs) ∨
    (∃ vs, r.classes = filterClassIdsJ vs) ∨
    (∃ fb, r.classes = fallbackValidClasses fb) := by
  unfold interpretParsed at h
  split at h
  · exact Except.noConfusion h
  · split at h
    · exact Except.noConfusion h
    · split at h
      · exact Or.inl (interpretShapeA_ok h)
      · split at h
        · split at h
          · split at h
            · exact Except.noConfusion h
            · split at h
              · exact Except.noConfusion h
              · cases h; exact Or.inl ⟨_, rfl⟩
          · rcases interpretSimpleOrFallback_ok h with h2 | h2
            · exact Or.inr (Or.inl h2)
            · exact Or.inr (Or.inr h2)
        · rcases interpretSimpleOrFallback_ok h with h2 | h2
          · exact Or.inr (Or.inl h2)
          · exact Or.inr (Or.inr h2)

/-- C4 amended: every element of the `classes` sequence returned by
`parseLLMResponse` is a number in the range `[0, 6]` (out-of-range ids
are silently dropped) — integrality is *not* enforced on the JSON paths
— and the fenced scenario input yields `count = 2`, `classes = [0]`
(the out-of-range id 9 dropped). -/
theorem c4_amended_classes_in_range :
    (∀ (s : String), ∀ x ∈ (parseLLMResponse s).classes, 0 ≤ x ∧ x ≤ 6) ∧
    parseLLMResponse
        "```json\n\x7b\"count\":2,\"objects\":[\x7b\"class\":0,\"confidence\":0.9\x7d,\x7b\"class\":9,\"confidence\":0.5\x7d]\x7d\n```" =
      { count := some 2, classes := [0], countConfidence := none,
        classConfidences := some [mkRat 9 10, mkRat 1 2] } := by
  constructor
  · intro s x hx
    unfold parseLLMResponse at hx
    split at hx
    · next parsed _ =>
      unfold interpretOrText at hx
      split at hx
      · next r heq =>
        rcases interpretParsed_ok_classes heq with ⟨vs, hc⟩ | ⟨vs, hc⟩ | ⟨fb, hc⟩
        · exact mem_filterClassIds (hc ▸ hx)
        · exact mem_filterClassIdsJ (hc ▸ hx)
        · exact mem_fallbackValidClasses (hc ▸ hx)
      · exact mem_textExtract_classes hx
    · exact mem_textExtract_classes hx
  · rfl

/-- C4 as claimed (every returned class id an *integer* in `0..6`) is
false: a JSON class id of `2.5` passes the `typeof id === 'number' &&
id >= 0 && id <= 6` filter and is returned, and `5/2` is not an
integer. -/
theorem c4_counterexample :
    ¬ (∀ (s : String), ∀ x ∈ (parseLLMResponse s).classes,
        ∃ n : ℤ, x = (n : ℚ) ∧ 0 ≤ x ∧ x ≤ 6) := by
  intro h
  obtain ⟨n, hn, -⟩ :=
    h "\x7b\"count\":1,\"objects\":[\x7b\"class\":2.5,\"confidence\":0.9\x7d]\x7d"
      (mkRat 5 2)
      (by rw [show (parseLLMResponse
            "\x7b\"count\":1,\"objects\":[\x7b\"class\":2.5,\"confidence\":0.9\x7d]\x7d").classes
            = [mkRat 5 2] from rfl]
          exact List.mem_singleton_self _)
  have hden := congrArg Rat.den hn
  rw [Rat.den_intCast] at hden
  exact absurd hden (by decide)

/-- Witness for `c4_amended_classes_in_range` at a concrete input whose
text-extraction path returns class id 3. -/
theorem c4_amended_witness : 0 ≤ (3 : ℚ) ∧ (3 : ℚ) ≤ 6 :=
  c4_amended_classes_in_range.1 "class 3" 3
    (by rw [show (parseLLMResponse "class 3").classes = [3] from rfl]
        exact List.mem_singleton_self _)

/-- A successful `.map(obj => obj.k)` preserves the array length. -/
theorem mapMember_ok_length {objs : List Json} {k : String} {vs : List (Option Json)}
    (h : mapMember objs k = .ok vs) : vs.length = objs.length := by
  induction objs generalizing vs with
  | nil =>
    have h2 : Except.ok (ε := Unit) ([] : List (Option Json)) = .ok vs := h
    cases h2; rfl
  | cons o os ih =>
    unfold mapMember at h
    split at h
    · exact Except.noConfusion h
    · split at h
      · exact Except.noConfusion h
      · next heq => cases h; simp [ih heq]

/-- A guard filter keeps a list whose members all satisfy the guard. -/
theorem filterMap_guard_id {P : ℚ → Prop} [DecidablePred P] {cls : List ℚ}
    (h : ∀ q ∈ cls, P q) :
    cls.filterMap (fun q => if P q then some q else none) = cls := by
  induction cls with
  | nil => rfl
  | cons q qs ih =>
    have hq : (if P q then some q else none) = some q := if_pos (h q (List.mem_cons_self q qs))
    rw [List.filterMap_cons, hq]
    exact congrArg (q :: ·) (ih fun x hx => h x (List.mem_cons_of_mem _ hx))

/-- `filterClassIds` over uniformly valid numeric class values is the
identity. -/
theorem filterClassIds_map_num {cls : List ℚ} (h : ∀ q ∈ cls, 0 ≤ q ∧ q ≤ 6) :
    filterClassIds (cls.map fun q => some (.num q)) = cls := by
  unfold filterClassIds
  rw [List.filterMap_map]
  exact filterMap_guard_id h

/-- `filterConfs` over uniformly valid numeric confidence values is the
identity. -/
theorem filterConfs_map_num {confs : List ℚ} (h : ∀ q ∈ confs, 0 ≤ q ∧ q ≤ 1) :
    filterConfs (confs.map fun q => some (.num q)) = confs := by
  unfold filterConfs
  rw [List.filterMap_map]
  exact filterMap_guard_id h

/-- C10 as claimed is false: classes and confidences are filtered
independently, so an object with a valid class but no (or non-numeric)
confidence desynchronises the two sequences — here `classes = [1, 2]`
but `classConfidences = [0.5]`. -/
theorem c10_counterexample :
    ¬ (∀ (s : String) (cs : List ℚ),
        (parseLLMResponse s).classConfidences = some cs →
        cs.length = (parseLLMResponse s).classes.length) := by
  intro h
  have h2 := h "\x7b\"count\":2,\"objects\":[\x7b\"class\":1\x7d,\x7b\"class\":2,\"confidence\":0.5\x7d]\x7d"
    [mkRat 1 2] rfl
  exact absurd h2 (by decide)

/-- C10 amended: on the `objects`-array shape, whenever *every* object
carries both a numeric class in `[0, 6]` and a numeric confidence in
`[0, 1]`, the returned `classConfidences` is defined and aligned with
`classes`: the two lists are the per-object class and confidence values
in order, and their lengths agree. -/
theorem c10_amended_aligned_when_all_valid (s : String) (parsed cv : Json)
    (ccv : Option Json) (objs : List Json) (cls confs : List ℚ)
    (h1 : jsonParse (cleanedResponse s) = some parsed)
    (h2 : jsMember parsed "count" = .ok (some cv))
    (h3 : jsMember parsed "objects" = .ok (some (.arr objs)))
    (h4 : mapMember objs "class" = .ok (cls.map fun q => some (.num q)))
    (h5 : mapMember objs "confidence" = .ok (confs.map fun q => some (.num q)))
    (h6 : ∀ q ∈ cls, 0 ≤ q ∧ q ≤ 6)
    (h7 : ∀ q ∈ confs, 0 ≤ q ∧ q ≤ 1)
    (h8 : jsMember parsed "countConfidence" = .ok ccv)
    (h9 : objs ≠ []) :
    (parseLLMResponse s).classes = cls ∧
    (parseLLMResponse s).classConfidences = some confs ∧
    cls.length = confs.length := by
  have hclen : cls.length = objs.length := by
    have := mapMember_ok_length h4
    simpa using this
  have hflen : confs.length = objs.length := by
    have := mapMember_ok_length h5
    simpa using this
  have hpos : 0 < confs.length := by
    rw [hflen]
    exact List.length_pos.mpr h9
  have e1 : parseLLMResponse s = interpretOrText parsed s := by
    unfold parseLLMResponse
    rw [h1]
  have e2 : interpretParsed parsed = interpretShapeA parsed cv objs := by
    unfold interpretParsed
    rw [h2, h3]
  have e3 : interpretShapeA parsed cv objs =
      .ok { count := jsToNumber cv, classes := cls, countConfidence := ccv,
            classConfidences := some confs } := by
    unfold interpretShapeA
    rw [h4, h5, h8]
    simp only [filterClassIds_map_num h6, filterConfs_map_num h7, if_pos hpos]
  have hres : parseLLMResponse s =
      { count := jsToNumber cv, classes := cls, countConfidence := ccv,
        classConfidences := some confs } := by
    rw [e1]
    unfold interpretOrText
    rw [e2, e3]
  refine ⟨?_, ?_, ?_⟩
  · rw [hres]
  · rw [hres]
  · rw [hclen, hflen]

/-- Witness for `c10_amended_aligned_when_all_valid` at a concrete
two-object response with all classes and confidences valid. -/
theorem c10_amended_witness :
    (parseLLMResponse "\x7b\"count\":2,\"objects\":[\x7b\"class\":1,\"confidence\":0.9\x7d,\x7b\"class\":2,\"confidence\":0.5\x7d]\x7d").classes = [1, 2] ∧
    (parseLLMResponse "\x7b\"count\":2,\"objects\":[\x7b\"class\":1,\"confidence\":0.9\x7d,\x7b\"class\":2,\"confidence\":0.5\x7d]\x7d").classConfidences =
      some [mkRat 9 10, mkRat 1 2] ∧
    ([1, 2] : List ℚ).length = ([mkRat 9 10, mkRat 1 2] : List ℚ).length :=
  c10_amended_aligned_when_all_valid _
    (.obj [("count", .num 2),
           ("objects", .arr
             [.obj [("class", .num 1), ("confidence", .num (mkRat 9 10))],
              .obj [("class", .num 2), ("confidence", .num (mkRat 1 2))]])])
    (.num 2) none
    [.obj [("class", .num 1), ("confidence", .num (mkRat 9 10))],
     .obj [("class", .num 2), ("confidence", .num (mkRat 1 2))]]
    [1, 2] [mkRat 9 10, mkRat 1 2]
    rfl rfl rfl rfl rfl (by decide) (by decide) rfl (List.cons_ne_nil _ _)

/-- Summing the occurrence counts of any duplicate-free id list never
exceeds the length of the counted list. -/
theorem sum_count_le_length {L : List ℚ} (hL : L.Nodup) (a : List ℚ) :
    (L.map fun c => a.count c).sum ≤ a.length := by
  rw [← List.sum_toFinset _ hL]
  have hsub : L.toFinset ⊆ L.toFinset ∪ (a : Multiset ℚ).toFinset :=
    Finset.subset_union_left
  have hzero : ∀ x ∈ L.toFinset ∪ (a : Multiset ℚ).toFinset,
      x ∉ (a : Multiset ℚ).toFinset → a.count x = 0 := by
    intro x _ hx
    rw [Multiset.mem_toFinset] at hx
    simpa using List.count_eq_zero_of_not_mem (by simpa using hx)
  calc L.toFinset.sum (fun c => a.count c)
      ≤ (L.toFinset ∪ (a : Multiset ℚ).toFinset).sum (fun c => a.count c) :=
        Finset.sum_le_sum_of_subset_of_nonneg hsub (fun _ _ _ => Nat.zero_le _)
    _ = (a : Multiset ℚ).toFinset.sum (fun c => a.count c) :=
        (Finset.sum_subset Finset.subset_union_right
          (by intro x hx hx2; exact hzero x hx hx2)).symm
    _ = a.length := by
        have h := Multiset.toFinset_sum_count_eq (a : Multiset ℚ)
        simp only [Multiset.coe_count, Multiset.coe_card] at h
        exact h

/-- The per-class `min(countActual, countPredicted)` total is bounded by
both input lengths. -/
theorem sum_min_count_le (a p : List ℚ) :
    (((a ++ p).dedup).map fun c =>
        min ((a.mergeSort fun x y => decide (x ≤ y)).count c)
          ((p.mergeSort fun x y => decide (x ≤ y)).count c)).sum
      ≤ min a.length p.length := by
  have hca : ∀ c : ℚ, (a.mergeSort fun x y => decide (x ≤ y)).count c = a.count c :=
    fun c => (List.mergeSort_perm a _).count_eq c
  have hcp : ∀ c : ℚ, (p.mergeSort fun x y => decide (x ≤ y)).count c = p.count c :=
    fun c => (List.mergeSort_perm p _).count_eq c
  refine le_min ?_ ?_
  · calc (((a ++ p).dedup).map fun c =>
          min ((a.mergeSort fun x y => decide (x ≤ y)).count c)
            ((p.mergeSort fun x y => decide (x ≤ y)).count c)).sum
        ≤ (((a ++ p).dedup).map fun c => a.count c).sum := by
          apply List.sum_le_sum
          intro c _
          rw [hca c]
          exact min_le_left _ _
      _ ≤ a.length := sum_count_le_length (List.nodup_dedup _) a
  · calc (((a ++ p).dedup).map fun c =>
          min ((a.mergeSort fun x y => decide (x ≤ y)).count c)
            ((p.mergeSort fun x y => decide (x ≤ y)).count c)).sum
        ≤ (((a ++ p).dedup).map fun c => p.count c).sum := by
          apply List.sum_le_sum
          intro c _
          rw [hcp c]
          exact min_le_right _ _
      _ ≤ p.length := sum_count_le_length (List.nodup_dedup _) p

/-- `calculateClassAccuracy` always lands in `[0, 1]`. -/
theorem calculateClassAccuracy_mem_unit (a p : List ℚ) :
    0 ≤ calculateClassAccuracy a p ∧ calculateClassAccuracy a p ≤ 1 := by
  simp only [calculateClassAccuracy]
  split_ifs with h1 h2 h3 h4 h5
  · norm_num
  · norm_num
  · norm_num
  · -- equal lengths, 0 < maxTotal
    have hcorrect := sum_min_count_le a p
    have hminmax : min a.length p.length ≤ max a.length p.length := min_le_max
    constructor
    · positivity
    · rw [div_le_one (by exact_mod_cast h5)]
      exact_mod_cast le_trans hcorrect hminmax
  · norm_num
  · -- differing lengths
    have hcorrect := sum_min_count_le a p
    have hminmax : min a.length p.length ≤ max a.length p.length := min_le_max
    have hmaxpos : 0 < max a.length p.length := by
      rcases not_and_or.mp h1 with h | h
      · exact lt_max_of_lt_left (Nat.pos_of_ne_zero h)
      · exact lt_max_of_lt_right (Nat.pos_of_ne_zero h)
    have hmaxposQ : (0 : ℚ) < ((max a.length p.length : ℕ) : ℚ) := by exact_mod_cast hmaxpos
    have hb1 : (0 : ℚ) ≤ (((a ++ p).dedup).map fun c =>
        min ((a.mergeSort fun x y => decide (x ≤ y)).count c)
          ((p.mergeSort fun x y => decide (x ≤ y)).count c)).sum / ((max a.length p.length : ℕ) : ℚ) := by
      positivity
    have hb2 : (((a ++ p).dedup).map fun c =>
        min ((a.mergeSort fun x y => decide (x ≤ y)).count c)
          ((p.mergeSort fun x y => decide (x ≤ y)).count c)).sum / ((max a.length p.length : ℕ) : ℚ) ≤ 1 := by
      rw [div_le_one hmaxposQ]
      exact_mod_cast le_trans hcorrect hminmax
    have hmaxposQ2 : (0 : ℚ) < max (a.length : ℚ) (p.length : ℚ) := by
      rw [← Nat.cast_max]
      exact hmaxposQ
    have hp1 : (0 : ℚ) ≤ min (a.length : ℚ) (p.length : ℚ) / max (a.length : ℚ) (p.length : ℚ) := by
      positivity
    have hp2 : min (a.length : ℚ) (p.length : ℚ) / max (a.length : ℚ) (p.length : ℚ) ≤ 1 := by
      rw [div_le_one hmaxposQ2]
      exact min_le_max
    exact ⟨mul_nonneg hb1 hp1, mul_le_one₀ hb2 hp1 hp2⟩

/-- C7 as claimed is false: the normalizer passes a JSON `count` value
through unvalidated, so it can produce a negative predicted count (here
`-1` from `{"count":-1,"classes":[]}`), and `calculateImageScore` then
returns a count accuracy of `-1`, outside `[0, 1]`. -/
theorem c7_counterexample :
    ¬ (∀ (a : ℚ) (ac : List ℚ) (s : String) (p : ℚ),
        0 ≤ a → (parseLLMResponse s).count = some p →
        (0 ≤ (calculateImageScore a ac p (parseLLMResponse s).classes).countAccuracy ∧
         (calculateImageScore a ac p (parseLLMResponse s).classes).countAccuracy ≤ 1) ∧
        (0 ≤ (calculateImageScore a ac p (parseLLMResponse s).classes).classAccuracy ∧
         (calculateImageScore a ac p (parseLLMResponse s).classes).classAccuracy ≤ 1)) := by
  intro h
  have h2 := (h 1 [] "\x7b\"count\":-1,\"classes\":[]\x7d" (mkRat (-1) 1)
    (by norm_num) rfl).1.1
  rw [show (parseLLMResponse "\x7b\"count\":-1,\"classes\":[]\x7d").classes = [] from rfl]
    at h2
  have hm : (mkRat (-1) 1 : ℚ) = -1 := by norm_num [Rat.mkRat_eq_div]
  have h3 : (calculateImageScore 1 [] (mkRat (-1) 1) []).countAccuracy = -1 := by
    rw [hm]
    norm_num [calculateImageScore, min_def, max_def]
  rw [h3] at h2
  exact absurd h2 (by norm_num)

/-- C7 amended: for every non-negative actual count and *non-negative*
predicted count, both score fields lie in `[0, 1]`; the class accuracy
lies in `[0, 1]` for all class lists unconditionally. -/
theorem c7_amended_scores_in_unit (a p : ℚ) (ac pc : List ℚ)
    (ha : 0 ≤ a) (hp : 0 ≤ p) :
    (0 ≤ (calculateImageScore a ac p pc).countAccuracy ∧
     (calculateImageScore a ac p pc).countAccuracy ≤ 1) ∧
    (0 ≤ (calculateImageScore a ac p pc).classAccuracy ∧
     (calculateImageScore a ac p pc).classAccuracy ≤ 1) := by
  constructor
  · simp only [calculateImageScore]
    split_ifs with h1 h2
    · norm_num
    · norm_num
    · have hane : a ≠ 0 := fun hc => h2 (Or.inl hc)
      have hpne : p ≠ 0 := fun hc => h2 (Or.inr hc)
      have hapos : 0 < a := lt_of_le_of_ne ha (Ne.symm hane)
      have hppos : 0 < p := lt_of_le_of_ne hp (Ne.symm hpne)
      have hmaxpos : 0 < max a p := lt_max_of_lt_left hapos
      constructor
      · exact div_nonneg (le_min ha hp) (le_of_lt hmaxpos)
      · rw [div_le_one hmaxpos]
        exact min_le_max
  · exact calculateClassAccuracy_mem_unit ac pc

/-- Witness for `c7_amended_scores_in_unit` at `actual = 2`,
`predicted = 3`, classes `[0, 1]` vs `[0]`. -/
theorem c7_amended_witness :
    (0 : ℚ) ≤ 2 ∧ (0 : ℚ) ≤ 3 ∧
    ((0 ≤ (calculateImageScore 2 [0, 1] 3 [0]).countAccuracy ∧
      (calculateImageScore 2 [0, 1] 3 [0]).countAccuracy ≤ 1) ∧
     (0 ≤ (calculateImageScore 2 [0, 1] 3 [0]).classAccuracy ∧
      (calculateImageScore 2 [0, 1] 3 [0]).classAccuracy ≤ 1)) :=
  ⟨by norm_num, by norm_num,
   c7_amended_scores_in_unit 2 3 [0, 1] [0] (by norm_num) (by norm_num)⟩

/-- Two lists have equal ascending `mergeSort` results exactly when they
are permutations of each other (i.e. equal as multisets). -/
theorem mergeSort_eq_iff_perm (a p : List ℚ) :
    (a.mergeSort (fun x y => decide (x ≤ y)) = p.mergeSort (fun x y => decide (x ≤ y)))
      ↔ a.Perm p := by
  have htrans : ∀ x y z : ℚ, decide (x ≤ y) = true → decide (y ≤ z) = true →
      decide (x ≤ z) = true := by
    intro x y z hxy hyz
    simp only [decide_eq_true_iff] at *
    exact le_trans hxy hyz
  have htotal : ∀ x y : ℚ, (decide (x ≤ y) || decide (y ≤ x)) = true := by
    intro x y
    simp [le_total]
  constructor
  · intro h
    exact (List.mergeSort_perm a _).symm.trans (h ▸ List.mergeSort_perm p _)
  · intro h
    apply List.eq_of_perm_of_sorted (r := (· ≤ · : ℚ → ℚ → Prop))
    · exact (List.mergeSort_perm a _).trans (h.trans (List.mergeSort_perm p _).symm)
    · exact (List.sorted_mergeSort htrans htotal a).imp fun hxy => of_decide_eq_true hxy
    · exact (List.sorted_mergeSort htrans htotal p).imp fun hxy => of_decide_eq_true hxy

/-- C1: `calculateClassAccuracy` computes exactly the multiset formula
of the specification — 1 on two empties, 0 when exactly one side is
empty, 1 on identical multisets, `correct/maxTotal` for equal lengths
and `(correct/maxTotal)·(min/max)` otherwise. -/
theorem c1_class_accuracy_matches_spec (actual predicted : List ℚ) :
    calculateClassAccuracy actual predicted = classAccuracySpec actual predicted := by
  by_cases hae : actual = []
  · by_cases hpe : predicted = [] <;>
      simp [calculateClassAccuracy, classAccuracySpec, hae, hpe]
  · by_cases hpe : predicted = []
    · simp [calculateClassAccuracy, classAccuracySpec, hae, hpe]
    · have hlena : actual.length ≠ 0 := fun h => hae (List.length_eq_zero.mp h)
      have hlenp : predicted.length ≠ 0 := fun h => hpe (List.length_eq_zero.mp h)
      have hmaxpos : 0 < max actual.length predicted.length :=
        lt_max_of_lt_left (Nat.pos_of_ne_zero hlena)
      have hiff :
          (actual.mergeSort (fun a b => decide (a ≤ b)) =
            predicted.mergeSort (fun a b => decide (a ≤ b)))
            ↔ (actual : Multiset ℚ) = (predicted : Multiset ℚ) :=
        (mergeSort_eq_iff_perm actual predicted).trans Multiset.coe_eq_coe.symm
      have hcnt : (fun c : ℚ =>
            min ((actual.mergeSort fun a b => decide (a ≤ b)).count c)
              ((predicted.mergeSort fun a b => decide (a ≤ b)).count c)) =
          fun c : ℚ => min (actual.count c) (predicted.count c) :=
        funext fun c => by
          rw [(List.mergeSort_perm actual _).count_eq c,
            (List.mergeSort_perm predicted _).count_eq c]
      simp only [calculateClassAccuracy, classAccuracySpec]
      rw [if_neg (show ¬(actual.length = 0 ∧ predicted.length = 0) from fun h => hlena h.1),
          if_neg (show ¬(actual.length = 0 ∨ predicted.length = 0) from fun h => h.elim hlena hlenp),
          if_neg (show ¬(actual = [] ∧ predicted = []) from fun h => hae h.1),
          if_neg (show ¬(actual = [] ∨ predicted = []) from fun h => h.elim hae hpe)]
      apply if_congr hiff rfl
      rw [hcnt, if_pos hmaxpos]
      simp only [Nat.cast_max]

/-- C6: an imported row's score is always `calculateImageScore` of the
parsed Actual/Predicted Objects/Classes cells — never the stored
accuracy cells — so two rows (and hence two CSV inputs) that differ only
in their Count Accuracy / Class Accuracy cells import with identical
scores. -/
theorem c6_scores_recomputed_from_cells :
    (∀ (headers : List (List Char)) (hasCC hasClC : Bool) (fields : List (List Char)),
      (buildCSVImage headers hasCC hasClC fields).score =
        some (calculateImageScore
          (((jsParseInt (getFieldOf headers fields "Actual Objects")).getD 0 : ℤ) : ℚ)
          ((parseClassesCell (getFieldOf headers fields "Actual Classes")).map fun z => (z : ℚ))
          (((jsParseInt (getFieldOf headers fields "Predicted Objects")).getD 0 : ℤ) : ℚ)
          ((parseClassesCell (getFieldOf headers fields "Predicted Classes")).map fun z => (z : ℚ)))) ∧
    (∀ (headers : List (List Char)) (hasCC1 hasClC1 hasCC2 hasClC2 : Bool)
        (f1 f2 : List (List Char)),
      getFieldOf headers f1 "Actual Objects" = getFieldOf headers f2 "Actual Objects" →
      getFieldOf headers f1 "Actual Classes" = getFieldOf headers f2 "Actual Classes" →
      getFieldOf headers f1 "Predicted Objects" = getFieldOf headers f2 "Predicted Objects" →
      getFieldOf headers f1 "Predicted Classes" = getFieldOf headers f2 "Predicted Classes" →
      (buildCSVImage headers hasCC1 hasClC1 f1).score =
        (buildCSVImage headers hasCC2 hasClC2 f2).score) := by
  have hrec : ∀ (headers : List (List Char)) (hasCC hasClC : Bool) (fields : List (List Char)),
      (buildCSVImage headers hasCC hasClC fields).score =
        some (calculateImageScore
          (((jsParseInt (getFieldOf headers fields "Actual Objects")).getD 0 : ℤ) : ℚ)
          ((parseClassesCell (getFieldOf headers fields "Actual Classes")).map fun z => (z : ℚ))
          (((jsParseInt (getFieldOf headers fields "Predicted Objects")).getD 0 : ℤ) : ℚ)
          ((parseClassesCell (getFieldOf headers fields "Predicted Classes")).map fun z => (z : ℚ))) :=
    fun _ _ _ _ => rfl
  refine ⟨hrec, ?_⟩
  intro headers cc1 clc1 cc2 clc2 f1 f2 e1 e2 e3 e4
  rw [hrec, hrec, e1, e2, e3, e4]

/-- Witness for `c6_scores_recomputed_from_cells`: two rows differing
only in their stored accuracy cells import with the same score. -/
theorem c6_witness :
    (buildCSVImage
        (["Actual Objects", "Actual Classes", "Predicted Objects", "Predicted Classes",
          "Count Accuracy", "Class Accuracy"].map String.data) true true
        (["2", "0;1", "2", "0;1", "10.0%", "10.0%"].map String.data)).score =
      (buildCSVImage
        (["Actual Objects", "Actual Classes", "Predicted Objects", "Predicted Classes",
          "Count Accuracy", "Class Accuracy"].map String.data) true true
        (["2", "0;1", "2", "0;1", "99.9%", "0.0%"].map String.data)).score :=
  c6_scores_recomputed_from_cells.2 _ true true true true _ _ rfl rfl rfl rfl

/-- `dropWhile` is the identity when no element satisfies the predicate. -/
theorem dropWhile_eq_self_of_none {p : Char → Bool} {l : List Char}
    (h : ∀ c ∈ l, p c = false) : l.dropWhile p = l := by
  cases l with
  | nil => rfl
  | cons a t =>
    rw [List.dropWhile_cons, h a (List.mem_cons_self a t)]
    simp

/-- `takeWhile` keeps everything when every element satisfies the
predicate. -/
theorem takeWhile_eq_self_of_all {p : Char → Bool} {l : List Char}
    (h : ∀ c ∈ l, p c = true) : l.takeWhile p = l := by
  induction l with
  | nil => rfl
  | cons a t ih =>
    rw [List.takeWhile_cons, h a (List.mem_cons_self a t)]
    simp only [if_pos trivial, List.cons.injEq, true_and]
    exact ih fun c hc => h c (List.mem_cons_of_mem a hc)

/-- `dropWhile` drops nothing-after-everything when every element
satisfies the predicate: it returns `[]`. -/
theorem dropWhile_eq_nil_of_all {p : Char → Bool} {l : List Char}
    (h : ∀ c ∈ l, p c = true) : l.dropWhile p = [] := by
  induction l with
  | nil => rfl
  | cons a t ih =>
    rw [List.dropWhile_cons, h a (List.mem_cons_self a t)]
    exact ih fun c hc => h c (List.mem_cons_of_mem a hc)

/-- `jsTrim` is the identity on whitespace-free strings. -/
theorem jsTrim_eq_self_of_no_ws {l : List Char}
    (h : ∀ c ∈ l, isWsChar c = false) : jsTrim l = l := by
  unfold jsTrim
  rw [dropWhile_eq_self_of_none h,
      dropWhile_eq_self_of_none (fun c hc => h c (List.mem_reverse.mp hc)),
      List.reverse_reverse]

/-- `jsTrim` is the identity when the first and last characters are not
whitespace. -/
theorem jsTrim_eq_self_of_ends {l : List Char}
    (h1 : ∀ c, l.head? = some c → isWsChar c = false)
    (h2 : ∀ c, l.getLast? = some c → isWsChar c = false) : jsTrim l = l := by
  cases l with
  | nil => rfl
  | cons a t =>
    unfold jsTrim
    rw [List.dropWhile_cons, h1 a rfl]
    have hrev : (a :: t).reverse.dropWhile isWsChar = (a :: t).reverse := by
      cases hr : (a :: t).reverse with
      | nil => rfl
      | cons b t2 =>
        have hb : (a :: t).getLast? = some b := by
          rw [← List.head?_reverse, hr]
          rfl
        rw [List.dropWhile_cons, h2 b hb]
        simp
    rw [if_neg Bool.false_ne_true, hrev, List.reverse_reverse]

/-- Members of a join are members of the separator or of some part. -/
theorem mem_joinWith {sep : List Char} {parts : List (List Char)} {c : Char}
    (hc : c ∈ joinWith sep parts) : c ∈ sep ∨ ∃ p ∈ parts, c ∈ p := by
  induction parts with
  | nil => exact absurd hc (by simp [joinWith])
  | cons x xs ih =>
    cases xs with
    | nil =>
      exact Or.inr ⟨x, List.mem_cons_self x [], hc⟩
    | cons y t =>
      rw [show joinWith sep (x :: y :: t) = x ++ sep ++ joinWith sep (y :: t) from rfl] at hc
      rcases List.mem_append.mp hc with hc2 | hc2
      · rcases List.mem_append.mp hc2 with hc3 | hc3
        · exact Or.inr ⟨x, List.mem_cons_self x _, hc3⟩
        · exact Or.inl hc3
      · rcases ih hc2 with h | ⟨p, hp, hcp⟩
        · exact Or.inl h
        · exact Or.inr ⟨p, List.mem_cons_of_mem x hp, hcp⟩

/-- A join whose first part is nonempty is nonempty. -/
theorem joinWith_ne_nil {sep : List Char} {x : List Char} {xs : List (List Char)}
    (hx : x ≠ []) : joinWith sep (x :: xs) ≠ [] := by
  cases xs with
  | nil => exact hx
  | cons y t =>
    rw [show joinWith sep (x :: y :: t) = x ++ sep ++ joinWith sep (y :: t) from rfl]
    simp [hx]

/-- Splitting a separator-free string is the singleton list. -/
theorem splitOnChar_of_not_mem {sep : Char} {l : List Char} (h : sep ∉ l) :
    splitOnChar sep l = [l] := by
  induction l with
  | nil => rfl
  | cons a t ih =>
    have ha : ¬ a = sep := fun hc => h (hc ▸ List.mem_cons_self a t)
    rw [show splitOnChar sep (a :: t) =
        (if a = sep then [] :: splitOnChar sep t
         else match splitOnChar sep t with
              | x :: xs => (a :: x) :: xs
              | [] => [[a]]) from rfl,
      if_neg ha, ih fun hc => h (List.mem_cons_of_mem a hc)]

/-- Splitting `a ++ sep :: b` when `a` is separator-free peels off `a`. -/
theorem splitOnChar_append_sep {sep : Char} {a b : List Char} (h : sep ∉ a) :
    splitOnChar sep (a ++ sep :: b) = a :: splitOnChar sep b := by
  induction a with
  | nil => simp [splitOnChar]
  | cons x t ih =>
    have hx : ¬ x = sep := fun hc => h (hc ▸ List.mem_cons_self x t)
    have ih2 := ih fun hc => h (List.mem_cons_of_mem x hc)
    rw [List.cons_append,
      show splitOnChar sep (x :: (t ++ sep :: b)) =
        (if x = sep then [] :: splitOnChar sep (t ++ sep :: b)
         else match splitOnChar sep (t ++ sep :: b) with
              | x2 :: xs => (x :: x2) :: xs
              | [] => [[x]]) from rfl,
      if_neg hx, ih2]

/-- Splitting a join of separator-free parts recovers the parts. -/
theorem splitOnChar_joinWith {sep : Char} {parts : List (List Char)}
    (hne : parts ≠ []) (h : ∀ p ∈ parts, sep ∉ p) :
    splitOnChar sep (joinWith [sep] parts) = parts := by
  induction parts with
  | nil => exact absurd rfl hne
  | cons x xs ih =>
    cases xs with
    | nil => exact splitOnChar_of_not_mem (h x (List.mem_cons_self x []))
    | cons y t =>
      rw [show joinWith [sep] (x :: y :: t) = x ++ sep :: joinWith [sep] (y :: t) from by
            simp [joinWith],
        splitOnChar_append_sep (h x (List.mem_cons_self x _)),
        ih (by simp) fun p hp => h p (List.mem_cons_of_mem x hp)]

/-- The rendered digit of a value below ten is a decimal digit
character. -/
theorem digit_char_isDigit {m : ℕ} (h : m < 10) :
    (Char.ofNat (48 + m)).isDigit = true := by
  interval_cases m <;> decide

/-- Code point of a rendered digit. -/
theorem digit_char_toNat {m : ℕ} (h : m < 10) :
    (Char.ofNat (48 + m)).toNat = 48 + m := by
  interval_cases m <;> decide

/-- Every character `natToCharsAux` emits is a digit (given a digit
accumulator). -/
theorem natToCharsAux_digits :
    ∀ (fuel n : ℕ) (acc : List Char), (∀ c ∈ acc, c.isDigit = true) →
      ∀ c ∈ natToCharsAux fuel n acc, c.isDigit = true := by
  intro fuel
  induction fuel with
  | zero => intro n acc hacc c hc; exact hacc c hc
  | succ fuel ih =>
    intro n acc hacc c hc
    rw [show natToCharsAux (fuel + 1) n acc =
        (if n < 10 then Char.ofNat (48 + n % 10) :: acc
         else natToCharsAux fuel (n / 10) (Char.ofNat (48 + n % 10) :: acc)) from rfl] at hc
    have hd : (Char.ofNat (48 + n % 10)).isDigit = true :=
      digit_char_isDigit (Nat.mod_lt n (by norm_num))
    split at hc
    · rcases List.mem_cons.mp hc with rfl | hc2
      · exact hd
      · exact hacc c hc2
    · refine ih (n / 10) _ ?_ c hc
      intro c2 hc2
      rcases List.mem_cons.mp hc2 with rfl | hc3
      · exact hd
      · exact hacc c2 hc3

/-- All characters of `natToChars` are digits. -/
theorem natToChars_digits (n : ℕ) : ∀ c ∈ natToChars n, c.isDigit = true :=
  natToCharsAux_digits (n + 1) n [] (by simp)

/-- `natToCharsAux` never returns `[]` from a nonempty accumulator. -/
theorem natToCharsAux_ne_nil_of_acc :
    ∀ (fuel n : ℕ) (acc : List Char), acc ≠ [] → natToCharsAux fuel n acc ≠ [] := by
  intro fuel
  induction fuel with
  | zero => intro n acc hacc; exact hacc
  | succ fuel ih =>
    intro n acc hacc
    rw [show natToCharsAux (fuel + 1) n acc =
        (if n < 10 then Char.ofNat (48 + n % 10) :: acc
         else natToCharsAux fuel (n / 10) (Char.ofNat (48 + n % 10) :: acc)) from rfl]
    split
    · exact List.cons_ne_nil _ _
    · exact ih (n / 10) _ (List.cons_ne_nil _ _)

/-- `natToChars` is never empty. -/
theorem natToChars_ne_nil (n : ℕ) : natToChars n ≠ [] := by
  unfold natToChars
  rw [show natToCharsAux (n + 1) n [] =
      (if n < 10 then Char.ofNat (48 + n % 10) :: []
       else natToCharsAux n (n / 10) (Char.ofNat (48 + n % 10) :: [])) from rfl]
  split
  · exact List.cons_ne_nil _ _
  · exact natToCharsAux_ne_nil_of_acc n (n / 10) _ (List.cons_ne_nil _ _)

/-- Shifting lemma for the decimal fold. -/
theorem foldl_digits_shift (acc : List Char) :
    ∀ v : ℕ, acc.foldl (fun a c => 10 * a + (c.toNat - 48)) v =
      v * 10 ^ acc.length + charsToNat acc := by
  induction acc with
  | nil => intro v; simp [charsToNat]
  | cons c t ih =>
    intro v
    have h1 : ((c :: t).foldl (fun a c => 10 * a + (c.toNat - 48)) v) =
        t.foldl (fun a c => 10 * a + (c.toNat - 48)) (10 * v + (c.toNat - 48)) := rfl
    have h2 : charsToNat (c :: t) =
        t.foldl (fun a c => 10 * a + (c.toNat - 48)) (c.toNat - 48) := by
      unfold charsToNat
      simp [List.foldl_cons]
    rw [h1, ih, h2, ih]
    ring_nf
    simp [List.length_cons, pow_succ]
    ring

/-- The decimal fold inverts `natToCharsAux`. -/
theorem charsToNat_natToCharsAux :
    ∀ (fuel n : ℕ) (acc : List Char), n < fuel →
      charsToNat (natToCharsAux fuel n acc) = n * 10 ^ acc.length + charsToNat acc := by
  intro fuel
  induction fuel with
  | zero => intro n acc hn; exact absurd hn (Nat.not_lt_zero n)
  | succ fuel ih =>
    intro n acc hn
    rw [show natToCharsAux (fuel + 1) n acc =
        (if n < 10 then Char.ofNat (48 + n % 10) :: acc
         else natToCharsAux fuel (n / 10) (Char.ofNat (48 + n % 10) :: acc)) from rfl]
    have hdn : (Char.ofNat (48 + n % 10)).toNat - 48 = n % 10 := by
      rw [digit_char_toNat (Nat.mod_lt n (by norm_num))]
      omega
    split
    · next hlt =>
      have : charsToNat (Char.ofNat (48 + n % 10) :: acc) =
          acc.foldl (fun a c => 10 * a + (c.toNat - 48)) ((Char.ofNat (48 + n % 10)).toNat - 48) := by
        unfold charsToNat
        simp [List.foldl_cons]
      rw [this, hdn, Nat.mod_eq_of_lt hlt, foldl_digits_shift]
    · next hge =>
      have hfuel : n / 10 < fuel := by
        have hpos : 0 < n := by omega
        have := Nat.div_lt_self hpos (by norm_num : (1 : ℕ) < 10)
        omega
      rw [ih (n / 10) _ hfuel]
      have hfold : charsToNat (Char.ofNat (48 + n % 10) :: acc) =
          acc.foldl (fun a c => 10 * a + (c.toNat - 48)) ((Char.ofNat (48 + n % 10)).toNat - 48) := by
        unfold charsToNat
        simp [List.foldl_cons]
      rw [hfold, hdn, foldl_digits_shift]
      have h2 : (10 * (n / 10) + n % 10) * 10 ^ acc.length = n * 10 ^ acc.length := by
        rw [Nat.div_add_mod]
      calc n / 10 * 10 ^ (Char.ofNat (48 + n % 10) :: acc).length
            + (n % 10 * 10 ^ acc.length + charsToNat acc)
          = (10 * (n / 10) + n % 10) * 10 ^ acc.length + charsToNat acc := by
            simp only [List.length_cons, pow_succ]
            ring
        _ = n * 10 ^ acc.length + charsToNat acc := by rw [h2]

/-- Parsing back the decimal rendering of a natural number. -/
theorem charsToNat_natToChars (n : ℕ) : charsToNat (natToChars n) = n := by
  unfold natToChars
  rw [charsToNat_natToCharsAux (n + 1) n [] (Nat.lt_succ_self n)]
  simp [charsToNat]

/-- A digit character is not whitespace. -/
theorem isDigit_not_ws {c : Char} (h : c.isDigit = true) : isWsChar c = false := by
  revert h
  unfold Char.isDigit isWsChar
  intro h
  simp only [Bool.or_eq_false_iff, decide_eq_false_iff_not]
  refine ⟨⟨⟨?_, ?_⟩, ?_⟩, ?_⟩ <;> (rintro rfl; simp_all)

/-- A digit character cannot break the CSV framing, nor is it a
semicolon, sign, or brace-like separator. -/
theorem isDigit_csvClean {c : Char} (h : c.isDigit = true) :
    csvCleanChar c ∧ c ≠ ';' := by
  revert h
  unfold Char.isDigit csvCleanChar
  intro h
  refine ⟨⟨?_, ?_, ?_⟩, ?_⟩ <;> (rintro rfl; revert h; decide)

/-- `jsParseIntDigits` inverts `natToChars`. -/
theorem jsParseIntDigits_natToChars (n : ℕ) :
    jsParseIntDigits (natToChars n) = some n := by
  unfold jsParseIntDigits
  rw [takeWhile_eq_self_of_all (natToChars_digits n)]
  rw [if_neg (natToChars_ne_nil n)]
  rw [charsToNat_natToChars n]

/-- Characters of `intToChars` are digits or a leading minus sign. -/
theorem intToChars_chars (z : ℤ) :
    ∀ c ∈ intToChars z, c.isDigit = true ∨ c = '-' := by
  unfold intToChars
  split
  · intro c hc
    rcases List.mem_cons.mp hc with rfl | hc2
    · exact Or.inr rfl
    · exact Or.inl (natToChars_digits _ c hc2)
  · intro c hc
    exact Or.inl (natToChars_digits _ c hc)

/-- `intToChars` output is whitespace-free. -/
theorem intToChars_no_ws (z : ℤ) : ∀ c ∈ intToChars z, isWsChar c = false := by
  intro c hc
  rcases intToChars_chars z c hc with h | rfl
  · exact isDigit_not_ws h
  · rfl

/-- `intToChars` output cannot break CSV framing and contains no
semicolon. -/
theorem intToChars_clean (z : ℤ) :
    ∀ c ∈ intToChars z, csvCleanChar c ∧ c ≠ ';' := by
  intro c hc
  rcases intToChars_chars z c hc with h | rfl
  · exact isDigit_csvClean h
  · refine ⟨⟨?_, ?_, ?_⟩, ?_⟩ <;> decide

/-- `intToChars` is nonempty. -/
theorem intToChars_ne_nil (z : ℤ) : intToChars z ≠ [] := by
  unfold intToChars
  split
  · exact List.cons_ne_nil _ _
  · exact natToChars_ne_nil _

/-- `jsParseInt` inverts `intToChars`. -/
theorem jsParseInt_intToChars (z : ℤ) : jsParseInt (intToChars z) = some z := by
  unfold jsParseInt
  rw [dropWhile_eq_self_of_none (intToChars_no_ws z)]
  by_cases hz : z < 0
  · rw [show intToChars z = '-' :: natToChars z.natAbs from by unfold intToChars; rw [if_pos hz]]
    simp only [reduceIte, jsParseIntDigits_natToChars]
    show some (-(z.natAbs : ℤ)) = some z
    rw [Option.some.injEq]
    omega
  · have hrepr : intToChars z = natToChars z.natAbs := by
      unfold intToChars
      rw [if_neg hz]
    rcases hnc : natToChars z.natAbs with _ | ⟨c, r⟩
    · exact absurd hnc (natToChars_ne_nil _)
    · have hcdig : c.isDigit = true := natToChars_digits z.natAbs c (by rw [hnc]; simp)
      have hcne1 : ¬ c = '-' := by
        intro hc
        rw [hc] at hcdig
        exact absurd hcdig (by decide)
      have hcne2 : ¬ c = '+' := by
        intro hc
        rw [hc] at hcdig
        exact absurd hcdig (by decide)
      rw [hrepr, hnc]
      simp only [if_neg hcne1, if_neg hcne2, ← hnc, jsParseIntDigits_natToChars]
      show some ((z.natAbs : ℤ)) = some z
      rw [Option.some.injEq]
      omega

/-- `filterMap` keeps a list fixed when its function is `some` on every
member. -/
theorem filterMap_eq_self {f : ℤ → Option ℤ} {l : List ℤ}
    (h : ∀ x ∈ l, f x = some x) : l.filterMap f = l := by
  induction l with
  | nil => rfl
  | cons z t ih =>
    rw [List.filterMap_cons, h z (List.mem_cons_self z t),
      ih fun x hx => h x (List.mem_cons_of_mem z hx)]

/-- Importing the exported `;`-joined class list recovers it exactly. -/
theorem parseClassesCell_roundtrip (l : List ℤ) :
    parseClassesCell (joinWith [';'] (l.map intToChars)) = l := by
  cases l with
  | nil => rfl
  | cons z t =>
    have hne : joinWith [';'] ((z :: t).map intToChars) ≠ [] := by
      rw [List.map_cons]
      exact joinWith_ne_nil (intToChars_ne_nil z)
    unfold parseClassesCell
    rw [if_neg hne,
      splitOnChar_joinWith (by simp) (by
        intro p hp hmem
        obtain ⟨w, _, rfl⟩ := List.mem_map.mp hp
        exact absurd rfl (intToChars_clean w ';' hmem).2),
      List.filterMap_map]
    exact filterMap_eq_self fun x _ => by
      show jsParseInt (jsTrim (intToChars x)) = some x
      rw [jsTrim_eq_self_of_no_ws (intToChars_no_ws x), jsParseInt_intToChars]

/-- Characters of `qToFixed` output: digits, a sign, or a decimal
point. -/
theorem qToFixed_chars (d : ℕ) (q : ℚ) :
    ∀ c ∈ qToFixed d q, c.isDigit = true ∨ c = '-' ∨ c = '.' := by
  unfold qToFixed
  intro c hc
  simp only [List.mem_append] at hc
  rcases hc with (hc | hc) | hc
  · split at hc
    · rcases List.mem_singleton.mp hc with rfl
      exact Or.inr (Or.inl rfl)
    · exact absurd hc (by simp)
  · exact Or.inl (natToChars_digits _ c hc)
  · split at hc
    · exact absurd hc (by simp)
    · rcases List.mem_cons.mp hc with rfl | hc2
      · exact Or.inr (Or.inr rfl)
      · unfold padZeros at hc2
        rcases List.mem_append.mp hc2 with hc3 | hc3
        · rcases List.eq_of_mem_replicate hc3 with rfl
          exact Or.inl (by decide)
        · exact Or.inl (natToChars_digits _ c hc3)

/-- `qToFixed` output cannot break CSV framing and contains no
semicolon. -/
theorem qToFixed_clean (d : ℕ) (q : ℚ) :
    ∀ c ∈ qToFixed d q, csvCleanChar c ∧ c ≠ ';' := by
  intro c hc
  rcases qToFixed_chars d q c hc with h | rfl | rfl
  · exact isDigit_csvClean h
  · exact ⟨⟨by decide, by decide, by decide⟩, by decide⟩
  · exact ⟨⟨by decide, by decide, by decide⟩, by decide⟩

/-- The empty string is CSV-clean. -/
theorem csvClean_nil : csvClean [] := by
  intro c hc
  exact absurd hc (by simp)

/-- CSV-cleanliness is preserved by append. -/
theorem csvClean_append {a b : List Char} (ha : csvClean a) (hb : csvClean b) :
    csvClean (a ++ b) := by
  intro c hc
  rcases List.mem_append.mp hc with h | h
  · exact ha c h
  · exact hb c h

/-- A `;`-join of CSV-clean parts is CSV-clean. -/
theorem csvClean_joinWith {parts : List (List Char)}
    (h : ∀ p ∈ parts, csvClean p) : csvClean (joinWith [';'] parts) := by
  intro c hc
  rcases mem_joinWith hc with hsep | ⟨p, hp, hcp⟩
  · rcases List.mem_singleton.mp hsep with rfl
    exact ⟨by decide, by decide, by decide⟩
  · exact h p hp c hcp

/-- The exported LLM-response cell (newlines and commas replaced) is
CSV-clean whenever the raw response contains no double quote. -/
theorem llm_cell_clean {s : List Char} (h : ∀ c ∈ s, c ≠ quotChar) :
    csvClean ((s.map fun c => if c = '\n' then ' ' else c).map
      fun c => if c = ',' then ';' else c) := by
  intro c hc
  obtain ⟨y, hy, rfl⟩ := List.mem_map.mp hc
  obtain ⟨x, hx, rfl⟩ := List.mem_map.mp hy
  by_cases hxn : x = '\n'
  · subst hxn
    exact ⟨by decide, by decide, by decide⟩
  · rw [if_neg hxn]
    by_cases hxc : x = ','
    · subst hxc
      exact ⟨by decide, by decide, by decide⟩
    · rw [if_neg hxc]
      exact ⟨h x hx, hxc, hxn⟩

/-- Every cell exported for a well-formed image is CSV-clean. -/
theorem exportRowCells_clean (img : EvaluationImage) (hwf : WellFormedImage img) :
    ∀ cell ∈ exportRowCells img, csvClean cell := by
  obtain ⟨hstatus, -, -, -, hid, hfn, hsub, hnames, hpnames, hllm⟩ := hwf
  have hint : ∀ z : ℤ, csvClean (intToChars z) :=
    fun z c hc => (intToChars_clean z c hc).1
  have hfix : ∀ (d : ℕ) (q : ℚ), csvClean (qToFixed d q ++ ['%']) := by
    intro d q c hc
    rcases List.mem_append.mp hc with h | h
    · exact (qToFixed_clean d q c h).1
    · rcases List.mem_singleton.mp h with rfl
      exact ⟨by decide, by decide, by decide⟩
  intro cell hcell
  simp only [exportRowCells, List.mem_cons, List.not_mem_nil, or_false] at hcell
  rcases hcell with rfl | rfl | rfl | rfl | rfl | rfl | rfl | rfl | rfl | rfl | rfl |
    rfl | rfl | rfl | rfl | rfl | rfl | rfl | rfl
  · exact hid
  · exact hfn
  · exact hsub
  · exact hint _
  · exact csvClean_joinWith fun p hp => by
      obtain ⟨z, _, rfl⟩ := List.mem_map.mp hp
      exact hint z
  · exact csvClean_joinWith fun p hp => by
      obtain ⟨n, hn, rfl⟩ := List.mem_map.mp hp
      exact hnames n hn
  · split
    · split
      · exact csvClean_nil
      · exact hint _
    · exact csvClean_nil
  · exact csvClean_joinWith fun p hp => by
      obtain ⟨z, _, rfl⟩ := List.mem_map.mp hp
      exact hint z
  · exact csvClean_joinWith fun p hp => by
      obtain ⟨n, hn, rfl⟩ := List.mem_map.mp hp
      exact hpnames n hn
  · cases img.score with
    | none => exact csvClean_nil
    | some sc => exact hfix _ _
  · cases img.score with
    | none => exact csvClean_nil
    | some sc => exact hfix _ _
  · split
    · split
      · exact csvClean_nil
      · exact hfix _ _
    · exact csvClean_nil
  · cases img.predictedClassConfidences with
    | none => exact csvClean_nil
    | some cs =>
      exact csvClean_joinWith fun p hp => by
        obtain ⟨q, _, rfl⟩ := List.mem_map.mp hp
        exact hfix _ _
  · split
    · split
      · exact csvClean_nil
      · intro c hc
        rcases List.mem_cons.mp hc with rfl | h
        · exact ⟨by decide, by decide, by decide⟩
        · exact (qToFixed_clean _ _ c h).1
    · exact csvClean_nil
  · split
    · split
      · exact csvClean_nil
      · exact hint _
    · exact csvClean_nil
  · split
    · split
      · exact csvClean_nil
      · exact hint _
    · exact csvClean_nil
  · split
    · split
      · exact csvClean_nil
      · exact hint _
    · exact csvClean_nil
  · rw [hstatus]
    intro c hc
    fin_cases hc <;> exact ⟨by decide, by decide, by decide⟩
  · exact llm_cell_clean hllm

/-- `parseCSVRow` opening a quote: switch into quoted mode. -/
theorem csvRowGo_false_quot (cur rest : List Char) :
    csvRowGo false cur (quotChar :: rest) = csvRowGo true cur rest := by
  rw [show csvRowGo false cur (quotChar :: rest) =
      (if quotChar = quotChar then csvRowGo true cur rest
       else if quotChar = ',' then jsTrim cur :: csvRowGo false [] rest
       else csvRowGo false (cur ++ [quotChar]) rest) from rfl,
    if_pos rfl]

/-- `parseCSVRow` on a final closing quote: push the last field. -/
theorem csvRowGo_true_quot_nil (cur : List Char) :
    csvRowGo true cur [quotChar] = [jsTrim cur] := by
  rw [show csvRowGo true cur [quotChar] =
      (if quotChar = quotChar then csvRowGo false cur []
       else csvRowGo true (cur ++ [quotChar]) []) from rfl,
    if_pos rfl]
  rfl

/-- `parseCSVRow` on a closing quote followed by the cell separator:
push the field and continue. -/
theorem csvRowGo_true_quot_comma (cur rest : List Char) :
    csvRowGo true cur (quotChar :: ',' :: rest) =
      jsTrim cur :: csvRowGo false [] rest := by
  rw [show csvRowGo true cur (quotChar :: ',' :: rest) =
      (if quotChar = quotChar ∧ ',' = quotChar then
        csvRowGo true (cur ++ [quotChar]) rest
       else if quotChar = quotChar then csvRowGo false cur (',' :: rest)
       else csvRowGo true (cur ++ [quotChar]) (',' :: rest)) from rfl,
    if_neg (by decide), if_pos rfl,
    show csvRowGo false cur (',' :: rest) =
      (if ',' = quotChar then csvRowGo true cur rest
       else if ',' = ',' then jsTrim cur :: csvRowGo false [] rest
       else csvRowGo false (cur ++ [',']) rest) from rfl,
    if_neg (by decide), if_pos rfl]

/-- Inside quotes, quote-free content is consumed verbatim into the
field accumulator. -/
theorem csvRowGo_true_content (content : List Char)
    (h : ∀ c ∈ content, c ≠ quotChar) :
    ∀ cur rest : List Char,
      csvRowGo true cur (content ++ rest) = csvRowGo true (cur ++ content) rest := by
  induction content with
  | nil =>
    intro cur rest
    rw [List.nil_append, List.append_nil]
  | cons x t ih =>
    intro cur rest
    have hx : x ≠ quotChar := h x (List.mem_cons_self x t)
    rw [List.cons_append]
    cases htr : t ++ rest with
    | nil =>
      rcases List.append_eq_nil.mp htr with ⟨rfl, rfl⟩
      rw [show csvRowGo true cur [x] =
          (if x = quotChar then csvRowGo false cur []
           else csvRowGo true (cur ++ [x]) []) from rfl,
        if_neg hx]
    | cons y ys =>
      rw [show csvRowGo true cur (x :: y :: ys) =
          (if x = quotChar ∧ y = quotChar then csvRowGo true (cur ++ [quotChar]) ys
           else if x = quotChar then csvRowGo false cur (y :: ys)
           else csvRowGo true (cur ++ [x]) (y :: ys)) from rfl,
        if_neg (fun hc => hx hc.1), if_neg hx, ← htr,
        ih (fun c hc => h c (List.mem_cons_of_mem x hc)) (cur ++ [x]) rest]
      simp

/-- Parsing back one exported line: the quote-wrapped, comma-joined
cells come back as the trimmed cells, provided no cell contains a
double quote. -/
theorem parseCSVRow_csvJoinRow :
    ∀ cells : List (List Char), cells ≠ [] →
      (∀ cell ∈ cells, ∀ c ∈ cell, c ≠ quotChar) →
      parseCSVRow (csvJoinRow cells) = cells.map jsTrim := by
  intro cells
  induction cells with
  | nil => intro hne _; exact absurd rfl hne
  | cons x t ih =>
    intro _ hq
    have hx := hq x (List.mem_cons_self x t)
    cases t with
    | nil =>
      show csvRowGo false [] (joinWith [','] [quoteCell x]) = [jsTrim x]
      rw [show joinWith [','] [quoteCell x] = quotChar :: (x ++ [quotChar]) from rfl,
        csvRowGo_false_quot, csvRowGo_true_content x hx [] [quotChar],
        List.nil_append, csvRowGo_true_quot_nil]
    | cons y t2 =>
      have hrest := ih (by simp) fun cell hc => hq cell (List.mem_cons_of_mem x hc)
      show csvRowGo false []
          (joinWith [','] (quoteCell x :: (y :: t2).map quoteCell)) =
        jsTrim x :: (y :: t2).map jsTrim
      rw [show joinWith [','] (quoteCell x :: (y :: t2).map quoteCell) =
            quotChar :: (x ++ (quotChar :: ',' ::
              joinWith [','] ((y :: t2).map quoteCell))) from by
          rw [List.map_cons]
          show quoteCell x ++ [','] ++ _ = _
          simp [quoteCell],
        csvRowGo_false_quot, csvRowGo_true_content x hx, List.nil_append,
        csvRowGo_true_quot_comma]
      exact congrArg _ hrest

/-- A join whose parts all end in a double quote ends in a double
quote. -/
theorem joinWith_ends_quot (sep : List Char) :
    ∀ parts : List (List Char), parts ≠ [] →
      (∀ p ∈ parts, ∃ r, p = r ++ [quotChar]) →
      ∃ r, joinWith sep parts = r ++ [quotChar] := by
  intro parts
  induction parts with
  | nil => intro hne _; exact absurd rfl hne
  | cons x t ih =>
    intro _ h
    cases t with
    | nil => exact h x (List.mem_cons_self x [])
    | cons y t2 =>
      obtain ⟨r, hr⟩ := ih (by simp) fun p hp => h p (List.mem_cons_of_mem x hp)
      refine ⟨x ++ sep ++ r, ?_⟩
      rw [show joinWith sep (x :: y :: t2) = x ++ sep ++ joinWith sep (y :: t2) from rfl,
        hr]
      simp

/-- A join whose first part starts with a double quote starts with a
double quote. -/
theorem joinWith_leads_quot (sep : List Char) (s : List Char)
    (xs : List (List Char)) :
    ∃ r, joinWith sep ((quotChar :: s) :: xs) = quotChar :: r := by
  cases xs with
  | nil => exact ⟨s, rfl⟩
  | cons y t =>
    exact ⟨s ++ sep ++ joinWith sep (y :: t), by
      rw [show joinWith sep ((quotChar :: s) :: y :: t) =
          (quotChar :: s) ++ sep ++ joinWith sep (y :: t) from rfl]
      simp⟩

/-- Every quoted CSV line starts and ends with a double quote. -/
theorem csvJoinRow_framed (cells : List (List Char)) (hne : cells ≠ []) :
    (∃ r, csvJoinRow cells = quotChar :: r) ∧
      (∃ r, csvJoinRow cells = r ++ [quotChar]) := by
  cases cells with
  | nil => exact absurd rfl hne
  | cons x t =>
    constructor
    · rw [show csvJoinRow (x :: t) =
          joinWith [','] ((quotChar :: (x ++ [quotChar])) :: t.map quoteCell) from rfl]
      exact joinWith_leads_quot [','] _ _
    · refine joinWith_ends_quot [','] _ (by simp) ?_
      intro p hp
      obtain ⟨c, _, rfl⟩ := List.mem_map.mp hp
      exact ⟨quotChar :: c, rfl⟩

/-- `trim` is the identity on a string that starts and ends with a
double quote. -/
theorem jsTrim_of_quot_framed {l : List Char}
    (h1 : ∃ r, l = quotChar :: r) (h2 : ∃ r, l = r ++ [quotChar]) :
    jsTrim l = l := by
  refine jsTrim_eq_self_of_ends ?_ ?_
  · obtain ⟨r, rfl⟩ := h1
    intro c hc
    rw [List.head?_cons, Option.some.injEq] at hc
    rw [← hc]
    decide
  · obtain ⟨r, rfl⟩ := h2
    intro c hc
    rw [List.getLast?_concat, Option.some.injEq] at hc
    rw [← hc]
    decide

/-- A quoted CSV line of clean cells contains no newline. -/
theorem csvJoinRow_no_newline {cells : List (List Char)}
    (h : ∀ cell ∈ cells, csvClean cell) : '\n' ∉ csvJoinRow cells := by
  intro hmem
  rcases mem_joinWith hmem with hsep | ⟨p, hp, hcp⟩
  · exact absurd (List.mem_singleton.mp hsep) (by decide)
  · obtain ⟨cell, hcell, rfl⟩ := List.mem_map.mp hp
    rcases List.mem_cons.mp hcp with hq | hq
    · exact absurd hq (by decide)
    · rcases List.mem_append.mp hq with hq2 | hq2
      · exact (h cell hcell _ hq2).2.2 rfl
      · exact absurd (List.mem_singleton.mp hq2) (by decide)

/-- A `filterMap` that hits `some` everywhere is the corresponding
`map`. -/
theorem filterMap_congr_some {α β : Type} {g : α → Option β} {f : α → β} :
    ∀ {l : List α}, (∀ x ∈ l, g x = some (f x)) → l.filterMap g = l.map f := by
  intro l
  induction l with
  | nil => intro _; rfl
  | cons x t ih =>
    intro h
    rw [List.filterMap_cons, h x (List.mem_cons_self x t), List.map_cons,
      ih fun z hz => h z (List.mem_cons_of_mem x hz)]

/-- Index of the `Actual Objects` column in the export header. -/
theorem findIdx_actual_objects :
    (csvHeaders.map String.data).findIdx?
      (fun h => decide (h = "Actual Objects".data)) = some 3 := by decide

/-- Index of the `Actual Classes` column in the export header. -/
theorem findIdx_actual_classes :
    (csvHeaders.map String.data).findIdx?
      (fun h => decide (h = "Actual Classes".data)) = some 4 := by decide

/-- Index of the `Predicted Objects` column in the export header. -/
theorem findIdx_predicted_objects :
    (csvHeaders.map String.data).findIdx?
      (fun h => decide (h = "Predicted Objects".data)) = some 6 := by decide

/-- Index of the `Predicted Classes` column in the export header. -/
theorem findIdx_predicted_classes :
    (csvHeaders.map String.data).findIdx?
      (fun h => decide (h = "Predicted Classes".data)) = some 7 := by decide

/-- `trim` is the identity on a `;`-joined list of rendered integers. -/
theorem jsTrim_join_intToChars (l : List ℤ) :
    jsTrim (joinWith [';'] (l.map intToChars)) =
      joinWith [';'] (l.map intToChars) := by
  refine jsTrim_eq_self_of_no_ws ?_
  intro c hc
  rcases mem_joinWith hc with hsep | ⟨p, hp, hcp⟩
  · rcases List.mem_singleton.mp hsep with rfl
    decide
  · obtain ⟨z, _, rfl⟩ := List.mem_map.mp hp
    exact intToChars_no_ws z c hcp

/-- Re-importing the trimmed cells of an exported row rebuilds the
same class lists and the same recomputed score, for any well-formed
image. -/
theorem buildCSVImage_roundtrip (img : EvaluationImage) (hwf : WellFormedImage img) :
    (buildCSVImage (csvHeaders.map String.data) true true
        ((exportRowCells img).map jsTrim)).actualClasses = img.actualClasses ∧
    (buildCSVImage (csvHeaders.map String.data) true true
        ((exportRowCells img).map jsTrim)).predictedClasses = img.predictedClasses ∧
    (buildCSVImage (csvHeaders.map String.data) true true
        ((exportRowCells img).map jsTrim)).score = img.score := by
  obtain ⟨-, hpo, hpc, hscore, -, -, -, -, -, -⟩ := hwf
  obtain ⟨po, hpo2⟩ := Option.isSome_iff_exists.mp hpo
  obtain ⟨pcl, hpc2⟩ := Option.isSome_iff_exists.mp hpc
  have hfAO : getFieldOf (csvHeaders.map String.data)
      ((exportRowCells img).map jsTrim) "Actual Objects" =
      jsTrim (intToChars img.actualObjects) := by
    unfold getFieldOf
    rw [findIdx_actual_objects]
    rfl
  have hfAC : getFieldOf (csvHeaders.map String.data)
      ((exportRowCells img).map jsTrim) "Actual Classes" =
      jsTrim (joinWith [';'] (img.actualClasses.map intToChars)) := by
    unfold getFieldOf
    rw [findIdx_actual_classes]
    rfl
  have hfPO : getFieldOf (csvHeaders.map String.data)
      ((exportRowCells img).map jsTrim) "Predicted Objects" =
      jsTrim (match img.predictedObjects with
        | some p => if p = 0 then [] else intToChars p
        | none => []) := by
    unfold getFieldOf
    rw [findIdx_predicted_objects]
    rfl
  have hfPC : getFieldOf (csvHeaders.map String.data)
      ((exportRowCells img).map jsTrim) "Predicted Classes" =
      jsTrim (joinWith [';'] ((img.predictedClasses.getD []).map intToChars)) := by
    unfold getFieldOf
    rw [findIdx_predicted_classes]
    rfl
  have hAO : (jsParseInt (getFieldOf (csvHeaders.map String.data)
      ((exportRowCells img).map jsTrim) "Actual Objects")).getD 0 =
      img.actualObjects := by
    rw [hfAO, jsTrim_eq_self_of_no_ws (intToChars_no_ws _), jsParseInt_intToChars]
    rfl
  have hAC : parseClassesCell (getFieldOf (csvHeaders.map String.data)
      ((exportRowCells img).map jsTrim) "Actual Classes") =
      img.actualClasses := by
    rw [hfAC, jsTrim_join_intToChars, parseClassesCell_roundtrip]
  have hPO : (jsParseInt (getFieldOf (csvHeaders.map String.data)
      ((exportRowCells img).map jsTrim) "Predicted Objects")).getD 0 = po := by
    rw [hfPO, hpo2]
    by_cases hz : po = 0
    · rw [show (match some po with
          | some p => if p = 0 then [] else intToChars p
          | none => ([] : List Char)) = if po = 0 then [] else intToChars po from rfl,
        if_pos hz]
      rw [hz]
      rfl
    · rw [show (match some po with
          | some p => if p = 0 then [] else intToChars p
          | none => ([] : List Char)) = if po = 0 then [] else intToChars po from rfl,
        if_neg hz, jsTrim_eq_self_of_no_ws (intToChars_no_ws _), jsParseInt_intToChars]
      rfl
  have hPC : parseClassesCell (getFieldOf (csvHeaders.map String.data)
      ((exportRowCells img).map jsTrim) "Predicted Classes") =
      img.predictedClasses.getD [] := by
    rw [hfPC, jsTrim_join_intToChars, parseClassesCell_roundtrip]
  refine ⟨?_, ?_, ?_⟩
  · rw [show (buildCSVImage (csvHeaders.map String.data) true true
        ((exportRowCells img).map jsTrim)).actualClasses =
        parseClassesCell (getFieldOf (csvHeaders.map String.data)
          ((exportRowCells img).map jsTrim) "Actual Classes") from rfl, hAC]
  · rw [show (buildCSVImage (csvHeaders.map String.data) true true
        ((exportRowCells img).map jsTrim)).predictedClasses =
        some (parseClassesCell (getFieldOf (csvHeaders.map String.data)
          ((exportRowCells img).map jsTrim) "Predicted Classes")) from rfl, hPC,
      hpc2]
    rw [show (some pcl).getD [] = pcl from rfl]
  · rw [show (buildCSVImage (csvHeaders.map String.data) true true
        ((exportRowCells img).map jsTrim)).score =
        some (calculateImageScore
          ((((jsParseInt (getFieldOf (csvHeaders.map String.data)
              ((exportRowCells img).map jsTrim) "Actual Objects")).getD 0 : ℤ) : ℚ))
          ((parseClassesCell (getFieldOf (csvHeaders.map String.data)
              ((exportRowCells img).map jsTrim) "Actual Classes")).map fun z => (z : ℚ))
          ((((jsParseInt (getFieldOf (csvHeaders.map String.data)
              ((exportRowCells img).map jsTrim) "Predicted Objects")).getD 0 : ℤ) : ℚ))
          ((parseClassesCell (getFieldOf (csvHeaders.map String.data)
              ((exportRowCells img).map jsTrim) "Predicted Classes")).map
            fun z => (z : ℚ))) from rfl,
      hAO, hAC, hPO, hPC, hscore, hpo2, hpc2]
    rfl

/-- An exported row always has its 19 cells. -/
theorem exportRowCells_ne_nil (img : EvaluationImage) : exportRowCells img ≠ [] := by
  intro h
  exact List.cons_ne_nil _ _ h

/-- The header cells contain no quote, comma or newline. -/
theorem csvHeaders_clean : ∀ cell ∈ csvHeaders.map String.data, csvClean cell := by
  decide

set_option maxRecDepth 40000 in
/-- Splitting the exported header line on commas and stripping quotes
recovers the header names. -/
theorem headerRow_fields :
    (splitOnChar ',' (csvJoinRow (csvHeaders.map String.data))).map
      (fun h => jsTrim (h.filter fun c => decide (c ≠ quotChar))) =
    csvHeaders.map String.data := by
  decide

/-- The required import headers are all present in the export header. -/
theorem requiredHeaders_present :
    (requiredCsvHeaders.all fun h =>
      (csvHeaders.map String.data).contains h.data) = true := by decide

/-- The export header carries the `Count Confidence` column. -/
theorem headers_hasCC :
    (csvHeaders.map String.data).contains "Count Confidence".data = true := by decide

/-- The export header carries the `Class Confidence` column. -/
theorem headers_hasClC :
    (csvHeaders.map String.data).contains "Class Confidence".data = true := by decide

/-- `parseCSVToEvaluationData` on any content whose trimmed line split
is the export header followed by at least one data line: every check
passes and each line is parsed by `parseCSVRow` and rebuilt by
`buildCSVImage` with both confidence columns present. -/
theorem parseCSV_of_good_lines (content : List Char) (rest : List (List Char))
    (hrest : rest ≠ [])
    (hsplit : splitOnChar '\n' (jsTrim content) =
      csvJoinRow (csvHeaders.map String.data) :: rest) :
    parseCSVToEvaluationData content =
      .ok (rest.filterMap fun rawLine =>
        if jsTrim rawLine = [] then none
        else if (parseCSVRow (jsTrim rawLine)).length < 19 then none
        else some (buildCSVImage (csvHeaders.map String.data) true true
          (parseCSVRow (jsTrim rawLine)))) := by
  have hlen : ¬ ((csvJoinRow (csvHeaders.map String.data) :: rest).length < 2) := by
    cases rest with
    | nil => exact absurd rfl hrest
    | cons a t => simp
  simp only [parseCSVToEvaluationData, hsplit, List.headD_cons, List.drop_succ_cons,
    List.drop_zero, headerRow_fields, headers_hasCC, headers_hasClC]
  rw [if_neg hlen, if_neg (by rw [requiredHeaders_present]; decide)]
  have h1 : ((List.map String.data csvHeaders).contains
      ['C','o','u','n','t',' ','C','o','n','f','i','d','e','n','c','e']) = true := by decide
  have h2 : ((List.map String.data csvHeaders).contains
      ['C','l','a','s','s',' ','C','o','n','f','i','d','e','n','c','e']) = true := by decide
  have h3 : (List.map String.data csvHeaders).length = 19 := by decide
  simp only [h1, h2, h3]

/-- C5 (amended): for every run with at least one image, all of whose
images are completed and well-formed (`WellFormedImage`), exporting via
`exportToCSV` and re-importing via `parseCSVToEvaluationData` succeeds
and yields, image by image, identical `actualClasses`, identical
`predictedClasses`, and a recomputed score exactly equal to the original
score. -/
theorem c5_amended_roundtrip (result : EvaluationResult)
    (hne : result.images ≠ [])
    (hwf : ∀ img ∈ result.images, WellFormedImage img) :
    ∃ imgs, parseCSVToEvaluationData (exportToCSV result) = .ok imgs ∧
      List.Forall₂ (fun a b => a.actualClasses = b.actualClasses ∧
          a.predictedClasses = b.predictedClasses ∧ a.score = b.score)
        result.images imgs := by
  refine ⟨result.images.map fun img => buildCSVImage (csvHeaders.map String.data)
      true true ((exportRowCells img).map jsTrim), ?_, ?_⟩
  · have hrowTrim : ∀ img ∈ result.images,
        jsTrim (csvJoinRow (exportRowCells img)) = csvJoinRow (exportRowCells img) := by
      intro img _
      obtain ⟨hlead, hend⟩ := csvJoinRow_framed _ (exportRowCells_ne_nil img)
      exact jsTrim_of_quot_framed hlead hend
    have htrim : jsTrim (exportToCSV result) = exportToCSV result := by
      refine jsTrim_of_quot_framed ?_ ?_
      · obtain ⟨⟨s, hs⟩, -⟩ := csvJoinRow_framed (csvHeaders.map String.data) (by decide)
        show ∃ r, joinWith ['\n'] (csvJoinRow (csvHeaders.map String.data) ::
          result.images.map fun img => csvJoinRow (exportRowCells img)) = quotChar :: r
        rw [hs]
        exact joinWith_leads_quot _ _ _
      · show ∃ r, joinWith ['\n'] (csvJoinRow (csvHeaders.map String.data) ::
          result.images.map fun img => csvJoinRow (exportRowCells img)) = r ++ [quotChar]
        refine joinWith_ends_quot _ _ (by simp) ?_
        intro p hp
        rcases List.mem_cons.mp hp with rfl | hp2
        · exact (csvJoinRow_framed _ (by decide)).2
        · obtain ⟨img, _, rfl⟩ := List.mem_map.mp hp2
          exact (csvJoinRow_framed _ (exportRowCells_ne_nil img)).2
    have hsplit : splitOnChar '\n' (jsTrim (exportToCSV result)) =
        csvJoinRow (csvHeaders.map String.data) ::
          result.images.map fun img => csvJoinRow (exportRowCells img) := by
      rw [htrim]
      show splitOnChar '\n' (joinWith ['\n']
        (csvJoinRow (csvHeaders.map String.data) ::
          result.images.map fun img => csvJoinRow (exportRowCells img))) =
        csvJoinRow (csvHeaders.map String.data) ::
          result.images.map fun img => csvJoinRow (exportRowCells img)
      refine splitOnChar_joinWith (by simp) ?_
      intro p hp
      rcases List.mem_cons.mp hp with rfl | hp2
      · exact csvJoinRow_no_newline csvHeaders_clean
      · obtain ⟨img, himg, rfl⟩ := List.mem_map.mp hp2
        exact csvJoinRow_no_newline (exportRowCells_clean img (hwf img himg))
    rw [parseCSV_of_good_lines (exportToCSV result)
        (result.images.map fun img => csvJoinRow (exportRowCells img))
        (by
          intro h
          exact hne (List.map_eq_nil_iff.mp h)) hsplit,
      List.filterMap_map]
    refine congrArg Except.ok (filterMap_congr_some ?_)
    intro img himg
    show (if jsTrim (csvJoinRow (exportRowCells img)) = [] then none
      else if (parseCSVRow (jsTrim (csvJoinRow (exportRowCells img)))).length < 19 then
        none
      else some (buildCSVImage (csvHeaders.map String.data) true true
        (parseCSVRow (jsTrim (csvJoinRow (exportRowCells img)))))) =
      some (buildCSVImage (csvHeaders.map String.data) true true
        ((exportRowCells img).map jsTrim))
    obtain ⟨⟨s, hs⟩, -⟩ := csvJoinRow_framed _ (exportRowCells_ne_nil img)
    rw [hrowTrim img himg,
      if_neg (by rw [hs]; exact List.cons_ne_nil _ _),
      parseCSVRow_csvJoinRow _ (exportRowCells_ne_nil img)
        (fun cell hc c hcc => (exportRowCells_clean img (hwf img himg) cell hc c hcc).1),
      if_neg (by
        rw [List.length_map, show (exportRowCells img).length = 19 from rfl]
        omega)]
  · have hgen : ∀ l : List EvaluationImage, (∀ i ∈ l, WellFormedImage i) →
        List.Forall₂ (fun a b => a.actualClasses = b.actualClasses ∧
            a.predictedClasses = b.predictedClasses ∧ a.score = b.score)
          l (l.map fun img => buildCSVImage (csvHeaders.map String.data)
            true true ((exportRowCells img).map jsTrim)) := by
      intro l
      induction l with
      | nil => intro _; exact List.Forall₂.nil
      | cons a t ih =>
        intro h
        refine List.Forall₂.cons ?_ (ih fun i hi => h i (List.mem_cons_of_mem a hi))
        obtain ⟨h1, h2, h3⟩ := buildCSVImage_roundtrip a (h a (List.mem_cons_self a t))
        exact ⟨h1.symm, h2.symm, h3.symm⟩
    exact hgen result.images hwf

set_option maxRecDepth 100000 in
/-- C5 as stated fails on the empty run (vacuously, all of its images
are completed and well-formed): the export is the bare header line and
re-importing it throws `Invalid CSV format: insufficient data` instead
of returning the run's (empty) image list. -/
theorem c5_counterexample :
    parseCSVToEvaluationData (exportToCSV { images := [] }) =
      .error "Invalid CSV format: insufficient data".data := by
  decide

/-- C5 witness: the amended round trip instantiated on a concrete
one-image completed run. -/
theorem c5_amended_witness :
    ({ images := [wfImage] } : EvaluationResult).images ≠ [] ∧
    (∀ img ∈ ({ images := [wfImage] } : EvaluationResult).images, WellFormedImage img) ∧
    ∃ imgs, parseCSVToEvaluationData (exportToCSV { images := [wfImage] }) = .ok imgs ∧
      List.Forall₂ (fun a b => a.actualClasses = b.actualClasses ∧
          a.predictedClasses = b.predictedClasses ∧ a.score = b.score)
        ({ images := [wfImage] } : EvaluationResult).images imgs := by
  have h1 : ({ images := [wfImage] } : EvaluationResult).images ≠ [] := by
    intro h
    exact List.cons_ne_nil _ _ h
  have h2 : ∀ img ∈ ({ images := [wfImage] } : EvaluationResult).images,
      WellFormedImage img := by
    intro img h
    rcases List.mem_singleton.mp h with rfl
    exact ⟨rfl, rfl, rfl, rfl, by decide, by decide, by decide, by decide,
      by decide, by decide⟩
  exact ⟨h1, h2, c5_amended_roundtrip _ h1 h2⟩
